import Mathlib

/-!
Verification of the definite-initialization pass
(`lib/SILPasses/DefiniteInitialization.cpp`).

The development shallowly embeds the pass's pure computations and its
stateful core.  Part 1 embeds the type-flattening helpers
(`getTupleElementCount`, `getNumSubElements`, `getPathStringToElement`).
Part 2 embeds the load-promotion availability scan
(`updateAvailableValues`, `computeAvailableValues`).  Part 3 embeds the
cyclic live-out computation (`ElementPromotion::isLiveOut`).  Part 4
embeds an executable model of one `ElementPromotion` run and of the
whole pass (`performSILDefiniteInitialization`) over a scalar-typed
instruction universe.  Part 5 embeds the element-use collector at the
type level (`ElementUseCollector` / `processAllocBox`).
-/

namespace DefiniteInit

/-! ## Part 1: Tuple element flattening / counting logic -/

/-- Model of a Swift `CanType` as the pass inspects it: a tuple (fields
with optional names), a nominal struct (stored properties), or any
other type, which the pass treats as a single opaque leaf. -/
inductive SType where
  | tuple (fields : List (Option String × SType))
  | strct (props : List (String × SType))
  | leaf

mutual
/-- Embeds `getTupleElementCount`: the number of elements in the
flattened type, recursing through tuple fields only; any non-tuple
(including a struct) is a single element. -/
def getTupleElementCount : SType → Nat
  | .tuple fields => tupleFieldsCount fields
  | .strct _ => 1
  | .leaf => 1

/-- Embeds the field loop of `getTupleElementCount`. -/
def tupleFieldsCount : List (Option String × SType) → Nat
  | [] => 0
  | f :: fs => getTupleElementCount f.2 + tupleFieldsCount fs
end

mutual
/-- Embeds `getNumSubElements`: the number of primitive subelements,
recursing through both tuple fields and struct stored properties. -/
def getNumSubElements : SType → Nat
  | .tuple fields => subElFieldsCount fields
  | .strct props => subElPropsCount props
  | .leaf => 1

/-- Embeds the tuple-field loop of `getNumSubElements`. -/
def subElFieldsCount : List (Option String × SType) → Nat
  | [] => 0
  | f :: fs => getNumSubElements f.2 + subElFieldsCount fs

/-- Embeds the stored-property loop of `getNumSubElements`. -/
def subElPropsCount : List (String × SType) → Nat
  | [] => 0
  | p :: ps => getNumSubElements p.2 + subElPropsCount ps
end

/-- Path component the source appends for one tuple field:
`'.' + name` for a named field, `'.' + utostr(FieldNo)` otherwise. -/
def fieldPathComponent (name : Option String) (fieldNo : Nat) : String :=
  "." ++ (match name with | some n => n | none => toString fieldNo)

mutual
/-- Embeds `getPathStringToElement`.  The source takes the accumulated
path by reference and returns `void`; we return the final string, with
`none` standing for the out-of-range `assert(0)` at the end of the
field loop.  Note the source returns immediately (with the accumulator
unchanged) on any non-tuple type, without inspecting `Element`. -/
def getPathStringToElement (T : SType) (element : Nat) (result : String) :
    Option String :=
  match T with
  | .tuple fields => pathStringFields fields 0 element result
  | .strct _ => some result
  | .leaf => some result

/-- Embeds the field loop of `getPathStringToElement`. -/
def pathStringFields (fields : List (Option String × SType)) (fieldNo : Nat)
    (element : Nat) (result : String) : Option String :=
  match fields with
  | [] => none
  | f :: fs =>
    let cnt := getTupleElementCount f.2
    if element < cnt then
      getPathStringToElement f.2 element (result ++ fieldPathComponent f.1 fieldNo)
    else
      pathStringFields fs (fieldNo + 1) (element - cnt) result
end

mutual
/-- Specification-side enumeration: the depth-first, left-to-right leaf
paths of a type, descending through tuple fields only (a struct or any
other non-tuple is a leaf), each path prefixed with the accumulator. -/
def leafPathsTuple : SType → String → List String
  | .tuple fields, acc => leafPathsFields fields 0 acc
  | .strct _, acc => [acc]
  | .leaf, acc => [acc]

/-- Field loop of `leafPathsTuple`. -/
def leafPathsFields : List (Option String × SType) → Nat → String → List String
  | [], _, _ => []
  | f :: fs, fieldNo, acc =>
    leafPathsTuple f.2 (acc ++ fieldPathComponent f.1 fieldNo) ++
      leafPathsFields fs (fieldNo + 1) acc
end


/-! ## Part 2: Availability computation for load promotion -/

/-- One instruction as encountered by the backward scan inside
`computeAvailableValues`, after access-path resolution: a
`StoreInst`/`AssignInst` whose destination resolves to first subelement
`start` and whose stored value spans `span` subelements (`span =
getNumSubElements` of the value's type), carrying the stored value `v`;
or any other instruction of the non-load-use set, which the source
conservatively treats as clobbering everything. -/
inductive ScanInst where
  | storeTo (v : Nat) (start : Nat) (span : Nat)
  | clobber

/-- Embeds `ElementPromotion::updateAvailableValues`.  Returns
(`ProducedSomething`, the remaining required set, the updated results).
A store fills each still-required bit in its span with `(value,
offset)` and clears it; any other instruction clears the whole required
set and produces nothing.  `storeStep` is the body of the source's
per-subelement loop. -/
def storeStep (v start : Nat)
    (acc : Bool × Finset Nat × (Nat → Option (Nat × Nat))) (i : Nat) :
    Bool × Finset Nat × (Nat → Option (Nat × Nat)) :=
  if start + i ∈ acc.2.1 then
    (true, acc.2.1.erase (start + i),
      fun j => if j = start + i then some (v, i) else acc.2.2 j)
  else acc

def updateAvailableValues (inst : ScanInst) (required : Finset Nat)
    (result : Nat → Option (Nat × Nat)) :
    Bool × Finset Nat × (Nat → Option (Nat × Nat)) :=
  match inst with
  | .storeTo v start span =>
    (List.range span).foldl (storeStep v start) (false, required, result)
  | .clobber => (false, ∅, result)

/-- Embeds the backward-scan loop of
`ElementPromotion::computeAvailableValues`.  The list holds the
instructions of the load's block that precede the load, innermost
first; `none` stands for an instruction outside the non-load-use set
(skipped by the `NonLoadUses.count` test). -/
def scanAvailable : List (Option ScanInst) → Bool → Finset Nat →
    (Nat → Option (Nat × Nat)) → Bool × Finset Nat × (Nat → Option (Nat × Nat))
  | [], found, required, result => (!found, required, result)
  | none :: rest, found, required, result => scanAvailable rest found required result
  | some inst :: rest, found, required, result =>
    let u := updateAvailableValues inst required result
    let found' := found || u.1
    if u.2.1 = ∅ then (!found', u.2.1, u.2.2)
    else scanAvailable rest found' u.2.1 u.2.2

/-- Embeds `ElementPromotion::computeAvailableValues`.  The boolean
result follows the source's convention: `true` means *failure* (no
available values were found), `false` means success. -/
def computeAvailableValues (hasNonLoadUse : Bool) (scan : List (Option ScanInst))
    (required : Finset Nat) (result : Nat → Option (Nat × Nat)) :
    Bool × Finset Nat × (Nat → Option (Nat × Nat)) :=
  if required = ∅ then (false, required, result)
  else if hasNonLoadUse then scanAvailable scan false required result
  else (true, required, result)

/-! ## Part 3: Live-out computation -/

/-- Embeds `LiveOutBlockState::LiveOutAvailability`. -/
inductive Availability where
  | unknown
  | notLiveOut
  | liveOut
  | computing
deriving DecidableEq

/-- Per-block availability table (`PerBlockInfo[...].Availability`),
keyed by block number. -/
def BState := Nat → Availability

/-- Pointwise update of the availability table. -/
def upd (s : BState) (b : Nat) (v : Availability) : BState :=
  fun x => if x = b then v else s x

/-- Embeds the predecessor loop of `ElementPromotion::isLiveOut` (also
reused verbatim by the predecessor check of `checkDefinitelyInit`):
query each predecessor in order, threading the table; stop at the first
`false`. -/
def liveOutPreds (f : BState → Nat → Option (Bool × BState)) :
    BState → List Nat → Option (Bool × BState)
  | s, [] => some (true, s)
  | s, p :: ps =>
    match f s p with
    | none => none
    | some (false, s') => some (false, s')
    | some (true, s') => liveOutPreds f s' ps

/-- Embeds `ElementPromotion::isLiveOut`, with recursion bounded by
explicit fuel; `none` means the fuel ran out (a sufficiently large fuel
never does, since each recursive step turns an `unknown` block into
`computing` first). -/
def isLiveOut (P : Nat → List Nat) : Nat → BState → Nat → Option (Bool × BState)
  | 0, _, _ => none
  | fuel + 1, s, b =>
    match s b with
    | .notLiveOut => some (false, s)
    | .liveOut => some (true, s)
    | .computing => some (true, s)
    | .unknown =>
      match liveOutPreds (isLiveOut P fuel) (upd s b .computing) (P b) with
      | none => none
      | some (false, s') => some (false, upd s' b .notLiveOut)
      | some (true, s') => some (true, upd s' b .liveOut)

/-- Specification-side description of a run of the predecessor loop in
which every queried block answers `true`: `SeqTrue f s l s'` holds when
querying the blocks of `l` in order from table `s` yields `true` each
time and ends in table `s'`. -/
inductive SeqTrue (f : BState → Nat → Option (Bool × BState)) :
    BState → List Nat → BState → Prop where
  | nil : ∀ s, SeqTrue f s [] s
  | cons : ∀ s p s₁ ps s₂, f s p = some (true, s₁) → SeqTrue f s₁ ps s₂ →
      SeqTrue f s (p :: ps) s₂

/-! ## Part 4: Function-level model of the pass

The model covers the scalar fragment of the pass: allocations whose
element type is neither a tuple nor a struct, so every allocation has a
single element bucket (`getTupleElementCount = 1`), no scalarization or
address projection arises, and every access path resolves to
subelement 0 with span 1.  Instructions carry a unique instruction id
`iid`; SSA values are numbers.  The modeled instruction universe is
`alloc_stack`, `mark_uninitialized`, `store`, `assign`, `load`,
`copy_addr`, `strong_release`, `dealloc_stack`, `mark_function_escape`,
`destroy_value`, and an opaque catch-all; `store_weak`, `apply`, the
existential/enum instructions and `alloc_box` are outside the modeled
universe. -/

/-- Instruction kinds of the modeled SIL fragment.  `allocStack` yields
a container value (result 0) and an address (result 1);
`markUninit` models `mark_uninitialized` (an address pass-through). -/
inductive InstKind where
  | allocStack (box addr : Nat)
  | markUninit (res operand : Nat)
  | store (src dst : Nat)
  | assign (src dst : Nat)
  | load (res addr : Nat)
  | copyAddr (src dst : Nat) (isInit : Bool)
  | strongRelease (operand : Nat)
  | deallocStack (operand : Nat)
  | markFuncEscape (operand : Nat)
  | destroyValue (operand : Nat)
  | otherInst (operands : List Nat)
deriving DecidableEq

/-- An instruction: a unique instruction id plus its kind. -/
structure Inst where
  iid : Nat
  k : InstKind
deriving DecidableEq

/-- Embeds the source's `UseKind` enum (`PartialStore` is shortened to
`partStore`). -/
inductive UseKind where
  | load
  | store
  | partStore
  | inOutUse
  | escape
  | release
deriving DecidableEq

/-- Embeds `ElementPromotion::DIKind` (`DI_Yes`, `DI_No`, `DI_Partial`;
the last is shortened to `part`). -/
inductive DIKind where
  | yes
  | no
  | part
deriving DecidableEq

/-- The diagnostics the pass can emit (`variable_defined_here` is the
companion note). -/
inductive Diag where
  | variable_used_before_initialized
  | variable_inout_before_initialized
  | variable_escape_before_initialized
  | variable_destroyed_before_initialized
  | variable_initialized_on_some_paths
  | struct_not_fully_initialized
  | global_variable_function_use_uninit
  | variable_defined_here
deriving DecidableEq

/-- Locate an instruction id inside a block, returning its position. -/
def findInstInBlock : List Inst → Nat → Option (Nat × Inst)
  | [], _ => none
  | i :: rest, iid =>
    if i.iid = iid then some (0, i)
    else (findInstInBlock rest iid).map (fun p => (p.1 + 1, p.2))

/-- Locate an instruction id in a function, returning
(block index, position in block, instruction). -/
def findInstFrom : List (List Inst) → Nat → Nat → Option (Nat × Nat × Inst)
  | [], _, _ => none
  | b :: bs, bi, iid =>
    match findInstInBlock b iid with
    | some (pos, ins) => some (bi, pos, ins)
    | none => findInstFrom bs (bi + 1) iid

/-- Locate an instruction id in a function. -/
def findInst (blocks : List (List Inst)) (iid : Nat) : Option (Nat × Nat × Inst) :=
  findInstFrom blocks 0 iid

/-- Value substitution (`replaceAllUsesWith`): rewrite one operand. -/
def substVal (o n v : Nat) : Nat := if v = o then n else v

/-- Rewrite the operands (not the results) of one instruction. -/
def substInst (o n : Nat) (i : Inst) : Inst :=
  ⟨i.iid, match i.k with
    | .allocStack box addr => .allocStack box addr
    | .markUninit res op => .markUninit res (substVal o n op)
    | .store src dst => .store (substVal o n src) (substVal o n dst)
    | .assign src dst => .assign (substVal o n src) (substVal o n dst)
    | .load res addr => .load res (substVal o n addr)
    | .copyAddr src dst ii => .copyAddr (substVal o n src) (substVal o n dst) ii
    | .strongRelease op => .strongRelease (substVal o n op)
    | .deallocStack op => .deallocStack (substVal o n op)
    | .markFuncEscape op => .markFuncEscape (substVal o n op)
    | .destroyValue op => .destroyValue (substVal o n op)
    | .otherInst ops => .otherInst (ops.map (substVal o n))⟩

/-- Embeds `replaceAllUsesWith` over the whole function. -/
def substBlocks (o n : Nat) (blocks : List (List Inst)) : List (List Inst) :=
  blocks.map (List.map (substInst o n))

/-- Replace the instruction at `pos` by a (possibly empty) sequence:
used for erasure, in-place mutation and assign lowering. -/
def replaceAt (blk : List Inst) (pos : Nat) (news : List Inst) : List Inst :=
  blk.take pos ++ news ++ blk.drop (pos + 1)

/-- Apply a block-local edit at block index `bi`. -/
def updBlock (blocks : List (List Inst)) (bi : Nat)
    (f : List Inst → List Inst) : List (List Inst) :=
  blocks.set bi (f (blocks.getD bi []))

/-- Embeds the use classification of `ElementUseCollector::collectUses`
for one instruction using the tracked address `v`, in the scalar
fragment (one bucket, `InStructSubElement`/`InEnumSubElement` never
set).  One entry is produced per matching operand, in operand order.
A `load` of `v` is a `Load`; a `store`/`assign` with `v` as destination
(operand 1) is a `Store`; `copy_addr` is a `Load` of its source and a
`Store` of its destination (`addElementUses` with a single slot); every
other use of `v` — including `mark_uninitialized`, which matches no
case of the classifier — falls through to `Escape`. -/
def classifyUses (v : Nat) (i : Inst) : List (Nat × UseKind) :=
  match i.k with
  | .allocStack _ _ => []
  | .load _ addr => if addr = v then [(i.iid, .load)] else []
  | .store src dst =>
    (if src = v then [(i.iid, .escape)] else []) ++
      (if dst = v then [(i.iid, .store)] else [])
  | .assign src dst =>
    (if src = v then [(i.iid, .escape)] else []) ++
      (if dst = v then [(i.iid, .store)] else [])
  | .copyAddr src dst _ =>
    (if src = v then [(i.iid, .load)] else []) ++
      (if dst = v then [(i.iid, .store)] else [])
  | .markUninit _ op => if op = v then [(i.iid, .escape)] else []
  | .strongRelease op => if op = v then [(i.iid, .escape)] else []
  | .deallocStack op => if op = v then [(i.iid, .escape)] else []
  | .markFuncEscape op => if op = v then [(i.iid, .escape)] else []
  | .destroyValue op => if op = v then [(i.iid, .escape)] else []
  | .otherInst ops => (ops.filter (· = v)).map (fun _ => (i.iid, .escape))

/-- Collect all uses of the address value `v`, in program order. -/
def collectAddrUses (blocks : List (List Inst)) (v : Nat) : List (Nat × UseKind) :=
  (blocks.flatten.map (classifyUses v)).flatten

/-- Embeds the container-result collection of `processAllocStack`: uses
of result 0 that are `strong_release` or `dealloc_stack` become
`Release` entries (other uses of the container are ignored). -/
def classifyBoxUse (v : Nat) (i : Inst) : List (Nat × UseKind) :=
  match i.k with
  | .strongRelease op => if op = v then [(i.iid, .release)] else []
  | .deallocStack op => if op = v then [(i.iid, .release)] else []
  | _ => []

/-- Collect the `Release` entries contributed by the container result. -/
def collectBoxReleases (blocks : List (List Inst)) (v : Nat) : List (Nat × UseKind) :=
  (blocks.flatten.map (classifyBoxUse v)).flatten

/-- State of one `ElementPromotion` run: the mutating function body,
the fresh-id counter, and the fields of the `ElementPromotion` class
(`Uses` with tombstoning, `NonLoadUses`, the per-block
`HasNonLoadUse` and `Availability` maps, `HasAnyEscape`, `HadError`),
plus the emitted diagnostics and the loads promoted so far. -/
structure EPState where
  blocks : List (List Inst)
  gen : Nat
  rootIid : Nat
  rootAddr : Nat
  trivialTy : Bool
  uses : List (Option Nat × UseKind)
  nonLoadUses : List Nat
  hasNLU : Nat → Bool
  avail : BState
  hasAnyEscape : Bool
  hadError : Bool
  diags : List Diag
  promoted : List Nat

/-- Embeds the `ElementPromotion` constructor: record every non-load
use in `NonLoadUses`, flag its block and pre-mark it `LiveOut`, record
escapes; then account for the allocation itself as a non-load use and
mark its block `NotLiveOut` if its availability is still unknown.
`mkEPStep` is the body of the constructor's use loop and `mkEPRootFix`
is the final accounting for the allocation itself. -/
def mkEPStep (st : EPState) (u : Nat × UseKind) : EPState :=
  if u.2 = UseKind.load then st
  else
    match findInst st.blocks u.1 with
    | none => st
    | some (bi, _, _) =>
      { st with
        nonLoadUses := st.nonLoadUses ++ [u.1],
        hasNLU := fun b => if b = bi then true else st.hasNLU b,
        avail := upd st.avail bi .liveOut,
        hasAnyEscape := if u.2 = UseKind.escape then true else st.hasAnyEscape }

def mkEPRootFix (rootIid : Nat) (st1 : EPState) : EPState :=
  match findInst st1.blocks rootIid with
  | none => st1
  | some (rootBi, _, _) =>
    { st1 with
      nonLoadUses := st1.nonLoadUses ++ [rootIid],
      hasNLU := fun b => if b = rootBi then true else st1.hasNLU b,
      avail :=
        if st1.avail rootBi = .unknown then upd st1.avail rootBi .notLiveOut
        else st1.avail }

def mkElementPromotion (blocks : List (List Inst)) (gen rootIid rootAddr : Nat)
    (trivialTy : Bool) (uses : List (Nat × UseKind)) : EPState :=
  mkEPRootFix rootIid (uses.foldl mkEPStep
    { blocks := blocks, gen := gen, rootIid := rootIid, rootAddr := rootAddr,
      trivialTy := trivialTy,
      uses := uses.map (fun u => (some u.1, u.2)),
      nonLoadUses := [], hasNLU := fun _ => false, avail := fun _ => .unknown,
      hasAnyEscape := false, hadError := false, diags := [], promoted := [] })

/-- Embeds the backward scan loop of
`ElementPromotion::checkDefinitelyInit`: walk the instructions
preceding the use (closest first), skip anything outside the
non-load-use set, and let the first member decide (`DI_No` if it is
the allocation itself, `DI_Yes` otherwise). -/
def scanNonLoadUses (nonLoadUses : List Nat) (rootIid : Nat) : List Inst → Option DIKind
  | [] => none
  | i :: rest =>
    if i.iid ∈ nonLoadUses then
      if i.iid = rootIid then some .no else some .yes
    else scanNonLoadUses nonLoadUses rootIid rest

/-- Embeds `ElementPromotion::checkDefinitelyInit`.  `P` gives each
block's predecessors and `fuel` bounds the live-out recursion; the
updated availability table is returned alongside the answer. -/
def checkDefinitelyInit (P : Nat → List Nat) (fuel : Nat) (st : EPState)
    (iid : Nat) : Option (DIKind × BState) :=
  match findInst st.blocks iid with
  | none => none
  | some (bi, pos, _) =>
    match
      (if st.hasNLU bi then
        scanNonLoadUses st.nonLoadUses st.rootIid
          (((st.blocks.getD bi []).take pos).reverse)
      else none) with
    | some d => some (d, st.avail)
    | none =>
      match liveOutPreds (isLiveOut P fuel) st.avail (P bi) with
      | none => none
      | some (true, s') => some (.yes, s')
      | some (false, s') => some (.no, s')

/-- Embeds `ElementPromotion::diagnoseInitError`: set `HadError` and
emit the error followed by the `variable_defined_here` note. -/
def diagnoseInitError (st : EPState) (d : Diag) : EPState :=
  { st with hadError := true, diags := st.diags ++ [d, .variable_defined_here] }

/-- Embeds `LowerAssignInstruction`: the sequence replacing an erased
`assign` once its initialization flag is known.  With `isInitialization`
or a trivially-copyable destination type, a single store; otherwise a
reload of the destination, the store, and a destroy (the type-lowering
collaborator's `emitDestroyValue`) of the reloaded previous value.
Fresh numbers are drawn for the new instruction ids and for the
reload's result. -/
def LowerAssignInstruction (isInitialization trivialTy : Bool) (src dst gen : Nat) :
    List Inst × Nat :=
  if isInitialization || trivialTy then
    ([⟨gen, .store src dst⟩], gen + 1)
  else
    ([⟨gen, .load (gen + 1) dst⟩, ⟨gen + 2, .store src dst⟩,
      ⟨gen + 3, .destroyValue (gen + 1)⟩], gen + 4)

/-- Embeds `ElementPromotion::handleLoadUse`. -/
def handleLoadUse (P : Nat → List Nat) (fuel : Nat) (st : EPState) (iid : Nat) :
    Option EPState :=
  match checkDefinitelyInit P fuel st iid with
  | none => none
  | some (d, av) =>
    if d = DIKind.yes then some { st with avail := av }
    else some (diagnoseInitError { st with avail := av } .variable_used_before_initialized)

/-- Embeds the skip filter at the head of `handleStoreUse`: full
stores that are trusted initializations are skipped (`false`), while
assigns, non-initializing `copy_addr`s, and every partial store
proceed to the DI check (`true`). -/
def storeSkipFilter (isPartialStore : Bool) (k : InstKind) : Bool :=
  if isPartialStore then true
  else
    match k with
    | .assign _ _ => true
    | .copyAddr _ _ ii => !ii
    | _ => false

/-- Embeds the bookkeeping after assign lowering in `handleStoreUse`:
each newly inserted store joins `NonLoadUses` and the use list as a
`Store`, each newly inserted load joins the use list as a `Load`. -/
def registerInserted (st : EPState) (ni : Inst) : EPState :=
  match ni.k with
  | .store _ _ =>
    { st with nonLoadUses := st.nonLoadUses ++ [ni.iid],
              uses := st.uses ++ [(some ni.iid, UseKind.store)] }
  | .load _ _ =>
    { st with uses := st.uses ++ [(some ni.iid, UseKind.load)] }
  | _ => st

/-- Embeds `ElementPromotion::handleStoreUse`: the skip filter for
trusted initializations, the DI check, the partial-store and
partial-path diagnostics, flag-setting on `copy_addr`, and assign
lowering with registration of the inserted stores and loads. -/
def handleStoreUse (P : Nat → List Nat) (fuel : Nat) (st : EPState) (iid : Nat)
    (isPartialStore : Bool) : Option EPState :=
  match findInst st.blocks iid with
  | none => none
  | some (bi, pos, ins) =>
    if storeSkipFilter isPartialStore ins.k = false then some st
    else
      match checkDefinitelyInit P fuel st iid with
      | none => none
      | some (d, av) =>
        if isPartialStore = true ∧ d ≠ DIKind.yes then
          some (diagnoseInitError { st with avail := av }
            .struct_not_fully_initialized)
        else if d = DIKind.part then
          some (diagnoseInitError { st with avail := av }
            .variable_initialized_on_some_paths)
        else
          match ins.k with
          | .copyAddr src dst _ =>
            some { st with
              avail := av,
              blocks := updBlock st.blocks bi
                (fun blk => replaceAt blk pos
                  [⟨iid, .copyAddr src dst (decide (d = DIKind.no))⟩]) }
          | .assign src dst =>
            some ((LowerAssignInstruction (decide (d = DIKind.no))
                st.trivialTy src dst st.gen).1.foldl registerInserted
              { st with
                avail := av,
                nonLoadUses := st.nonLoadUses.erase iid,
                blocks := updBlock st.blocks bi
                  (fun blk => replaceAt blk pos
                    (LowerAssignInstruction (decide (d = DIKind.no))
                      st.trivialTy src dst st.gen).1),
                gen := (LowerAssignInstruction (decide (d = DIKind.no))
                  st.trivialTy src dst st.gen).2 })
          | _ => some { st with avail := av }

/-- Embeds `ElementPromotion::handleInOutUse`. -/
def handleInOutUse (P : Nat → List Nat) (fuel : Nat) (st : EPState) (iid : Nat) :
    Option EPState :=
  match checkDefinitelyInit P fuel st iid with
  | none => none
  | some (d, av) =>
    if d = DIKind.yes then some { st with avail := av }
    else some (diagnoseInitError { st with avail := av } .variable_inout_before_initialized)

/-- Embeds `ElementPromotion::handleEscape` (the diagnostic chooses the
global-variable wording exactly for `mark_function_escape`). -/
def handleEscape (P : Nat → List Nat) (fuel : Nat) (st : EPState) (iid : Nat) :
    Option EPState :=
  match checkDefinitelyInit P fuel st iid with
  | none => none
  | some (d, av) =>
    if d = DIKind.yes then some { st with avail := av }
    else
      match findInst st.blocks iid with
      | none => none
      | some (_, _, ins) =>
        match ins.k with
        | .markFuncEscape _ =>
          some (diagnoseInitError { st with avail := av }
            .global_variable_function_use_uninit)
        | _ =>
          some (diagnoseInitError { st with avail := av }
            .variable_escape_before_initialized)

/-- Embeds `ElementPromotion::handleRelease`. -/
def handleRelease (P : Nat → List Nat) (fuel : Nat) (st : EPState) (iid : Nat) :
    Option EPState :=
  match checkDefinitelyInit P fuel st iid with
  | none => none
  | some (d, av) =>
    if d = DIKind.yes then some { st with avail := av }
    else some (diagnoseInitError { st with avail := av } .variable_destroyed_before_initialized)

/-- Dispatch of one `Uses` entry in phase 1 of
`ElementPromotion::doIt` (tombstoned entries are skipped). -/
def processUse (P : Nat → List Nat) (fuel : Nat) (st : EPState)
    (entry : Option Nat × UseKind) : Option EPState :=
  match entry with
  | (none, _) => some st
  | (some iid, .load) => handleLoadUse P fuel st iid
  | (some iid, .store) => handleStoreUse P fuel st iid false
  | (some iid, .partStore) => handleStoreUse P fuel st iid true
  | (some iid, .inOutUse) => handleInOutUse P fuel st iid
  | (some iid, .escape) => handleEscape P fuel st iid
  | (some iid, .release) => handleRelease P fuel st iid

/-- Embeds the phase-1 loop of `ElementPromotion::doIt`: index-based
iteration re-reading the (possibly grown) length each step, returning
as soon as `HadError` is set.  `loopFuel` bounds the iteration count;
`none` means it was exhausted. -/
def doItLoop (P : Nat → List Nat) (liveFuel : Nat) :
    Nat → Nat → EPState → Option EPState
  | 0, _, _ => none
  | fuel + 1, i, st =>
    if i < st.uses.length then
      match processUse P liveFuel st (st.uses.getD i (none, UseKind.load)) with
      | none => none
      | some st' => if st'.hadError then some st' else doItLoop P liveFuel fuel (i + 1) st'
    else some st

/-- View of one already-collected instruction for the backward scan of
`computeAvailableValues`: members of the non-load-use set become
`ScanInst`s (stores and assigns with their resolved access path — in
the scalar fragment always subelement 0, span 1 — and everything else
a clobber); instructions outside the set are skipped (`none`). -/
def toScanInst (nonLoadUses : List Nat) (i : Inst) : Option ScanInst :=
  if i.iid ∈ nonLoadUses then
    some
      (match i.k with
        | .store src _ => .storeTo src 0 1
        | .assign src _ => .storeTo src 0 1
        | _ => .clobber)
  else none

/-- Embeds `ElementPromotion::promoteLoad` in the scalar fragment:
only `load` instructions are handled; promotion is abandoned if the
value has any escape (`hasEscapedAt`); the access path of the load is
resolved (in the scalar fragment the address must be the root address,
otherwise the source's access-path assertion fires, modeled as `none`);
the availability scan runs over the block prefix; on success the
aggregated value (here: the single available subelement, or a fresh
reload when the subelement is missing) replaces all uses of the load
and the load is erased. -/
def promoteLoad (st : EPState) (iid : Nat) : Option EPState :=
  match findInst st.blocks iid with
  | none => none
  | some (bi, pos, ins) =>
    match ins.k with
    | .load res addr =>
      if st.hasAnyEscape then some st
      else if addr ≠ st.rootAddr then none
      else
        if (computeAvailableValues (st.hasNLU bi)
            ((((st.blocks.getD bi []).take pos).reverse).map
              (toScanInst st.nonLoadUses)) {0} (fun _ => none)).1 then
          some st
        else
          match (computeAvailableValues (st.hasNLU bi)
              ((((st.blocks.getD bi []).take pos).reverse).map
                (toScanInst st.nonLoadUses)) {0} (fun _ => none)).2.2 0 with
          | some (v, 0) =>
            some { st with
              blocks := substBlocks res v
                (updBlock st.blocks bi (fun b => replaceAt b pos [])),
              promoted := st.promoted ++ [iid] }
          | some (_, _ + 1) => none
          | none =>
            some { st with
              blocks := substBlocks res (st.gen + 1)
                (updBlock st.blocks bi
                  (fun b => replaceAt b pos [⟨st.gen, .load (st.gen + 1) addr⟩])),
              gen := st.gen + 2,
              promoted := st.promoted ++ [iid] }
    | _ => some st

/-- Embeds the phase-2 loop of `ElementPromotion::doIt`: attempt to
promote every (non-tombstoned) `Load` use. -/
def promoteLoadStep (st : EPState) (u : Option Nat × UseKind) : Option EPState :=
  match u with
  | (some iid, UseKind.load) => promoteLoad st iid
  | _ => some st

def promoteLoadsGo : List (Option Nat × UseKind) → EPState → Option EPState
  | [], st => some st
  | u :: us, st =>
    match promoteLoadStep st u with
    | none => none
    | some st' => promoteLoadsGo us st'

def promoteLoads (st : EPState) : Option EPState := promoteLoadsGo st.uses st

/-- Embeds `ElementPromotion::doIt`: phase 1, and phase 2 only when no
error was diagnosed (the phase-1 loop returns from `doIt` on error). -/
def elementPromotionDoIt (P : Nat → List Nat) (liveFuel loopFuel : Nat)
    (st : EPState) : Option EPState :=
  match doItLoop P liveFuel loopFuel 0 st with
  | none => none
  | some st1 => if st1.hadError then some st1 else promoteLoads st1

/-- Result of one root's processing / of the whole pass: the rewritten
function body, the fresh-id counter and the emitted diagnostics. -/
structure PassOut where
  blocks : List (List Inst)
  gen : Nat
  diags : List Diag
deriving DecidableEq

/-- Embeds `processAllocStack` in the scalar fragment (a single element
bucket): collect the address uses, append `Release` entries for the
container result, and run `ElementPromotion`. -/
def processAllocStack (P : Nat → List Nat) (liveFuel loopFuel : Nat)
    (trivialTy : Bool) (blocks : List (List Inst)) (gen : Nat)
    (rootIid box addr : Nat) : Option PassOut :=
  match elementPromotionDoIt P liveFuel loopFuel
      (mkElementPromotion blocks gen rootIid addr trivialTy
        (collectAddrUses blocks addr ++ collectBoxReleases blocks box)) with
  | none => none
  | some st' => some ⟨st'.blocks, st'.gen, st'.diags⟩

/-- Embeds `processMarkUninitialized` in the scalar fragment: collect
the uses of the marker's result and run `ElementPromotion` (no
container result, hence no `Release` collection). -/
def processMarkUninit (P : Nat → List Nat) (liveFuel loopFuel : Nat)
    (trivialTy : Bool) (blocks : List (List Inst)) (gen : Nat)
    (rootIid res : Nat) : Option PassOut :=
  match elementPromotionDoIt P liveFuel loopFuel
      (mkElementPromotion blocks gen rootIid res trivialTy
        (collectAddrUses blocks res)) with
  | none => none
  | some st' => some ⟨st'.blocks, st'.gen, st'.diags⟩

/-- The allocation roots the driver recognizes, in program order.  The
processing of a root never erases or rewrites a later root, so the
driver's careful iterator walk is equivalent to folding over the roots
of the original function. -/
def rootsOf (blocks : List (List Inst)) : List Inst :=
  blocks.flatten.filter
    (fun i =>
      match i.k with
      | .allocStack _ _ => true
      | .markUninit _ _ => true
      | _ => false)

/-- Embeds the driver loop of `checkDefiniteInitialization`: process
every allocation root in order, threading the mutating function and
accumulating diagnostics. -/
def driveRoots (P : Nat → List Nat) (liveFuel loopFuel : Nat) (trivialTy : Bool) :
    List Inst → PassOut → Option PassOut
  | [], acc => some acc
  | root :: roots, acc =>
    match root.k with
    | .allocStack box addr =>
      match processAllocStack P liveFuel loopFuel trivialTy acc.blocks acc.gen
          root.iid box addr with
      | none => none
      | some o =>
        driveRoots P liveFuel loopFuel trivialTy roots
          ⟨o.blocks, o.gen, acc.diags ++ o.diags⟩
    | .markUninit res _ =>
      match processMarkUninit P liveFuel loopFuel trivialTy acc.blocks acc.gen
          root.iid res with
      | none => none
      | some o =>
        driveRoots P liveFuel loopFuel trivialTy roots
          ⟨o.blocks, o.gen, acc.diags ++ o.diags⟩
    | _ => driveRoots P liveFuel loopFuel trivialTy roots acc

/-- Embeds `checkDefiniteInitialization`: process every allocation root
of the original function in order (Part 4's header notes why iterating
the original roots is faithful). -/
def checkDefiniteInitialization (P : Nat → List Nat) (liveFuel loopFuel : Nat)
    (trivialTy : Bool) (blocks : List (List Inst)) (gen : Nat) : Option PassOut :=
  driveRoots P liveFuel loopFuel trivialTy (rootsOf blocks) ⟨blocks, gen, []⟩

/-- Embeds one block's sweep of `lowerRawSILOperations`: assigns are
lowered (as assignments, `isInitialization = false`) and never
revisited; `mark_uninitialized` is erased, recording the
`replaceAllUsesWith` pair; `mark_function_escape` is erased.  The
block-splitting recovery branch of the source is dead in this model
because the lowering sequence never splits a block. -/
def lowerRawBlockGo (trivialTy : Bool) : List Inst → Nat →
    List Inst × List (Nat × Nat) × Nat
  | [], gen => ([], [], gen)
  | i :: rest, gen =>
    match i.k with
    | .assign src dst =>
      ((LowerAssignInstruction false trivialTy src dst gen).1 ++
          (lowerRawBlockGo trivialTy rest
            (LowerAssignInstruction false trivialTy src dst gen).2).1,
        (lowerRawBlockGo trivialTy rest
          (LowerAssignInstruction false trivialTy src dst gen).2).2.1,
        (lowerRawBlockGo trivialTy rest
          (LowerAssignInstruction false trivialTy src dst gen).2).2.2)
    | .markUninit res op =>
      ((lowerRawBlockGo trivialTy rest gen).1,
        (res, op) :: (lowerRawBlockGo trivialTy rest gen).2.1,
        (lowerRawBlockGo trivialTy rest gen).2.2)
    | .markFuncEscape _ => lowerRawBlockGo trivialTy rest gen
    | _ =>
      (i :: (lowerRawBlockGo trivialTy rest gen).1,
        (lowerRawBlockGo trivialTy rest gen).2.1,
        (lowerRawBlockGo trivialTy rest gen).2.2)

/-- One function-level fold step of `lowerRawSILOperations`: lower the
next block, collecting its `replaceAllUsesWith` pairs. -/
def lowerRawStep (trivialTy : Bool)
    (acc : List (List Inst) × List (Nat × Nat) × Nat) (blk : List Inst) :
    List (List Inst) × List (Nat × Nat) × Nat :=
  (acc.1 ++ [(lowerRawBlockGo trivialTy blk acc.2.2).1],
    acc.2.1 ++ (lowerRawBlockGo trivialTy blk acc.2.2).2.1,
    (lowerRawBlockGo trivialTy blk acc.2.2).2.2)

/-- Apply the recorded `replaceAllUsesWith` pairs, latest first. -/
def applySubsts : List (Nat × Nat) → List (List Inst) → List (List Inst)
  | [], bs => bs
  | p :: ps, bs => substBlocks p.1 p.2 (applySubsts ps bs)

/-- Embeds `lowerRawSILOperations` over the whole function.  The
recorded `replaceAllUsesWith` substitutions are applied at the end,
latest first, which agrees with the source's immediate application
because the sweep's decisions depend only on instruction kinds and a
marker's operand can only name an earlier definition. -/
def lowerRawSILOperations (trivialTy : Bool) (blocks : List (List Inst))
    (gen : Nat) : List (List Inst) × Nat :=
  (applySubsts
      (blocks.foldl (lowerRawStep trivialTy) ([], [], gen)).2.1
      (blocks.foldl (lowerRawStep trivialTy) ([], [], gen)).1,
    (blocks.foldl (lowerRawStep trivialTy) ([], [], gen)).2.2)

/-- Embeds `performSILDefiniteInitialization` for one function:
definite-initialization checking and promotion, then the raw-SIL
lowering sweep. -/
def performSILDefiniteInitialization (P : Nat → List Nat)
    (liveFuel loopFuel : Nat) (trivialTy : Bool) (blocks : List (List Inst))
    (gen : Nat) : Option PassOut :=
  match checkDefiniteInitialization P liveFuel loopFuel trivialTy blocks gen with
  | none => none
  | some ps =>
    let low := lowerRawSILOperations trivialTy ps.blocks ps.gen
    some ⟨low.1, low.2, ps.diags⟩

/-- The raw SIL operations that `lowerRawSILOperations` is responsible
for eliminating: `assign`, `mark_uninitialized`, `mark_function_escape`. -/
def isRawOp (k : InstKind) : Bool :=
  match k with
  | .assign _ _ => true
  | .markUninit _ _ => true
  | .markFuncEscape _ => true
  | _ => false

/-! ## Part 5: Element-use collection at the type level

This part models `ElementUseCollector::collectUses` /
`processAllocBox` at the level of the allocation's element type, to
settle the behavior for zero-element (empty tuple) allocations.  The
modeled use shapes are direct uses of the allocation's address: a
`load`, a `store`/`assign` with the address as destination, the source
or destination side of a `copy_addr`, and any other (escape-producing)
use. -/

/-- Shapes of direct uses of an allocation's address. -/
inductive UseShape where
  | uload
  | ustore
  | ucopySrc
  | ucopyDst
  | uother
deriving DecidableEq

/-- Rewrites performed during use collection: an aggregate load or
store on a tuple-typed address is scalarized (split into per-element
operations — none for an empty tuple — and erased). -/
inductive Rewrite where
  | scalarizedLoad (fieldCount : Nat)
  | scalarizedStore (fieldCount : Nat)
deriving DecidableEq

/-- Accumulator of the collection walk: the per-bucket use array
(`Uses`, indexed by element number) and the rewrites performed. -/
structure CollectAcc where
  buckets : Nat → List UseKind
  rewrites : List Rewrite

/-- Append one use to a bucket (`Uses[BaseElt].push_back`). -/
def pushBucket (acc : CollectAcc) (idx : Nat) (k : UseKind) : CollectAcc :=
  { acc with
    buckets := fun j => if j = idx then acc.buckets idx ++ [k] else acc.buckets j }

/-- Embeds `addElementUses`: an operation on a value of type `useTy`
acts on `getTupleElementCount useTy` consecutive buckets (the
struct/enum flags are never set for the use shapes modeled here). -/
def addElementUses (acc : CollectAcc) (base : Nat) (useTy : SType)
    (k : UseKind) : CollectAcc :=
  (List.range (getTupleElementCount useTy)).foldl
    (fun acc i => pushBucket acc (base + i) k) acc

/-- Direct classification of one use shape (phase A of `collectUses`).
Loads and stores on a tuple-typed address are deferred to the
scalarization phase and contribute nothing here. -/
def classifyShape (T : SType) (base : Nat) (s : UseShape) (acc : CollectAcc) :
    CollectAcc :=
  match s, T with
  | .uload, .tuple _ => acc
  | .uload, _ => pushBucket acc base .load
  | .ustore, .tuple _ => acc
  | .ustore, _ => pushBucket acc base .store
  | .ucopySrc, _ => addElementUses acc base T .load
  | .ucopyDst, _ => addElementUses acc base T .store
  | .uother, _ => addElementUses acc base T .escape

/-- The rewrite recorded for one scalarized aggregate operation. -/
def rewriteOf (fieldCount : Nat) : UseShape → Rewrite
  | .uload => .scalarizedLoad fieldCount
  | _ => .scalarizedStore fieldCount

mutual
/-- Embeds `ElementUseCollector::collectUses`: classify every use of
the pointer; on a tuple-typed pointer, aggregate loads and stores are
collected for scalarization, rewritten into per-element operations
(recorded in `rewrites`), and the freshly created element addresses
are walked recursively with the per-element operations as their
uses. -/
def collectUses (T : SType) (base : Nat) (shapes : List UseShape)
    (acc : CollectAcc) : CollectAcc :=
  match T with
  | .tuple fields =>
    let acc := shapes.foldl (fun a s => classifyShape (.tuple fields) base s a) acc
    let deferred := shapes.filter (fun s => s = .uload ∨ s = .ustore)
    if deferred.isEmpty then acc
    else
      let acc :=
        { acc with
          rewrites := acc.rewrites ++ deferred.map (rewriteOf fields.length) }
      collectTupleFields fields base deferred acc
  | .strct props => shapes.foldl (fun a s => classifyShape (.strct props) base s a) acc
  | .leaf => shapes.foldl (fun a s => classifyShape .leaf base s a) acc

/-- Embeds the recursion of `collectElementUses` over the element
addresses created by scalarization: each field's element address is
walked with the per-element operations, at the base element adjusted
by the flattened count of the preceding fields. -/
def collectTupleFields (fields : List (Option String × SType)) (base : Nat)
    (elemShapes : List UseShape) (acc : CollectAcc) : CollectAcc :=
  match fields with
  | [] => acc
  | f :: fs =>
    collectTupleFields fs (base + getTupleElementCount f.2) elemShapes
      (collectUses f.2 base elemShapes acc)
end

/-- Embeds `processAllocBox`, parameterized by the per-element
processing (`ElementPromotion(...).doIt()`, modeled in Part 4; the
parameter returns the diagnostics of one element's run): size the use
array by `getTupleElementCount`, collect the address uses, append a
`Release` for each `strong_release` of the box result to every bucket,
then process each element.  Returns the bucket array, the collection
rewrites, and all emitted diagnostics. -/
def processAllocBox (T : SType) (shapes : List UseShape) (releases : Nat)
    (processElement : Nat → List UseKind → List Diag) :
    List (List UseKind) × List Rewrite × List Diag :=
  let count := getTupleElementCount T
  let acc := collectUses T 0 shapes ⟨fun _ => [], []⟩
  let buckets := (List.range count).map
    (fun i => acc.buckets i ++ List.replicate releases UseKind.release)
  (buckets, acc.rewrites,
    ((List.range count).map (fun i => processElement i (buckets.getD i []))).flatten)

/-- Specification-side description of one phase-1 handler's effect on
the error state: the promoted list is untouched, and either the
diagnostics and error flag are unchanged, or exactly one error
diagnostic — never the note itself, and never the unreachable
initialized-on-some-paths diagnostic — was appended together with the
`variable_defined_here` note, with the error flag set. -/
def HandlerSpec (st st' : EPState) : Prop :=
  st'.promoted = st.promoted ∧
  ((st'.hadError = st.hadError ∧ st'.diags = st.diags) ∨
    (∃ e, e ≠ Diag.variable_defined_here ∧
      e ≠ Diag.variable_initialized_on_some_paths ∧
      st'.hadError = true ∧
      st'.diags = st.diags ++ [e, Diag.variable_defined_here]))

/-! ## Concrete inputs used by witnesses and counterexamples -/

/-- A one-block control-flow graph: no predecessors. -/
def noPreds : Nat → List Nat := fun _ => []

/-- The function of the idempotence counterexample:
`%100/%101 = alloc_stack ; %102 = mark_uninitialized %101 ;
copy_addr %103 to %101 [no init]`. -/
def cexBlocks : List (List Inst) :=
  [[⟨0, .allocStack 100 101⟩, ⟨1, .markUninit 102 101⟩,
    ⟨2, .copyAddr 103 101 false⟩]]

/-- A simple stored-then-loaded function used by witnesses:
`%100/%101 = alloc_stack ; store %50 to %101 ; %60 = load %101`. -/
def simpleBlocks : List (List Inst) :=
  [[⟨0, .allocStack 100 101⟩, ⟨1, .store 50 101⟩, ⟨2, .load 60 101⟩]]

/-- The block index of an instruction id. -/
def blockOf (blocks : List (List Inst)) (iid : Nat) : Option Nat :=
  (findInst blocks iid).map (fun t => t.1)

/-- The all-unknown availability table. -/
def allUnknown : BState := fun _ => .unknown

/-- The `ElementPromotion` state constructed for `simpleBlocks`, used
by witnesses. -/
def witnessEP : EPState :=
  mkElementPromotion simpleBlocks 200 0 101 false
    (collectAddrUses simpleBlocks 101 ++ collectBoxReleases simpleBlocks 100)


/-! ## Helper lemmas -/

mutual
theorem leafPathsTuple_length (T : SType) (acc : String) :
    (leafPathsTuple T acc).length = getTupleElementCount T := by
  match T with
  | .tuple fields =>
    rw [leafPathsTuple, getTupleElementCount]
    exact leafPathsFields_length fields 0 acc
  | .strct props => rfl
  | .leaf => rfl

theorem leafPathsFields_length (fields : List (Option String × SType))
    (fieldNo : Nat) (acc : String) :
    (leafPathsFields fields fieldNo acc).length = tupleFieldsCount fields := by
  match fields with
  | [] => rfl
  | f :: fs =>
    rw [leafPathsFields, tupleFieldsCount, List.length_append,
      leafPathsTuple_length, leafPathsFields_length]
end

mutual
theorem getPathStringToElement_eq_leafPath (T : SType) (acc : String)
    (i : Nat) (h : i < getTupleElementCount T) :
    getPathStringToElement T i acc = (leafPathsTuple T acc)[i]? := by
  match T with
  | .tuple fields =>
    rw [getPathStringToElement, leafPathsTuple]
    exact pathStringFields_eq_leafPath fields 0 i acc (by
      rw [getTupleElementCount] at h; exact h)
  | .strct props =>
    rw [getTupleElementCount] at h
    interval_cases i
    rfl
  | .leaf =>
    rw [getTupleElementCount] at h
    interval_cases i
    rfl

theorem pathStringFields_eq_leafPath (fields : List (Option String × SType))
    (fieldNo : Nat) (i : Nat) (acc : String) (h : i < tupleFieldsCount fields) :
    pathStringFields fields fieldNo i acc = (leafPathsFields fields fieldNo acc)[i]? := by
  match fields with
  | [] => exact absurd h (by rw [tupleFieldsCount]; omega)
  | f :: fs =>
    rw [pathStringFields, leafPathsFields]
    by_cases hi : i < getTupleElementCount f.2
    · simp only [hi, if_true]
      rw [getPathStringToElement_eq_leafPath f.2 _ i hi,
        List.getElem?_append_left (by rw [leafPathsTuple_length]; exact hi)]
    · simp only [hi, if_false]
      rw [tupleFieldsCount] at h
      rw [pathStringFields_eq_leafPath fs (fieldNo + 1)
          (i - getTupleElementCount f.2) acc (by omega)]
      rw [List.getElem?_append_right (by rw [leafPathsTuple_length]; omega),
        leafPathsTuple_length]
end

theorem liveOutPreds_true_iff (f : BState → Nat → Option (Bool × BState))
    (l : List Nat) (s s' : BState) :
    liveOutPreds f s l = some (true, s') ↔ SeqTrue f s l s' := by
  induction l generalizing s with
  | nil =>
    constructor
    · intro h
      rw [liveOutPreds] at h
      cases h
      exact SeqTrue.nil _
    · intro h
      cases h
      rfl
  | cons p ps ih =>
    constructor
    · intro h
      rw [liveOutPreds] at h
      match hf : f s p with
      | none => rw [hf] at h; cases h
      | some (false, s₁) => rw [hf] at h; cases h
      | some (true, s₁) =>
        rw [hf] at h
        exact SeqTrue.cons _ _ _ _ _ hf ((ih s₁).1 h)
    · intro h
      cases h with
      | cons _ _ t₁ _ _ hf htail =>
        rw [liveOutPreds, hf]
        exact (ih t₁).2 htail

theorem liveOutPreds_false_iff (f : BState → Nat → Option (Bool × BState))
    (l : List Nat) (s s' : BState) :
    liveOutPreds f s l = some (false, s') ↔
      ∃ l₁ p l₂ s₁, l = l₁ ++ p :: l₂ ∧ SeqTrue f s l₁ s₁ ∧
        f s₁ p = some (false, s') := by
  induction l generalizing s with
  | nil =>
    constructor
    · intro h
      rw [liveOutPreds] at h
      cases h
    · rintro ⟨l₁, p, l₂, s₁, hsplit, -, -⟩
      exact absurd hsplit (by simp)
  | cons q qs ih =>
    constructor
    · intro h
      rw [liveOutPreds] at h
      match hf : f s q with
      | none => rw [hf] at h; cases h
      | some (false, s₁) =>
        rw [hf] at h
        cases h
        exact ⟨[], q, qs, s, rfl, SeqTrue.nil s, hf⟩
      | some (true, s₁) =>
        rw [hf] at h
        obtain ⟨l₁, p, l₂, s₂, hsplit, hseq, hp⟩ := (ih s₁).1 h
        exact ⟨q :: l₁, p, l₂, s₂, by rw [hsplit]; rfl,
          SeqTrue.cons s q s₁ l₁ s₂ hf hseq, hp⟩
    · rintro ⟨l₁, p, l₂, s₁, hsplit, hseq, hp⟩
      match l₁, hsplit with
      | [], hsplit =>
        cases hsplit
        cases hseq
        rw [liveOutPreds, hp]
      | q' :: l₁', hsplit =>
        rw [List.cons_append] at hsplit
        cases hsplit
        cases hseq with
        | cons _ _ t₂ _ _ hq hseq' =>
          rw [liveOutPreds, hq]
          exact (ih t₂).2 ⟨l₁', p, l₂, s₁, rfl, hseq', hp⟩

theorem liveOutPreds_no_computing
    (f : BState → Nat → Option (Bool × BState))
    (hf : ∀ s p r s', f s p = some (r, s') →
      ∀ x, s' x = .computing → s x = .computing) :
    ∀ (l : List Nat) (s : BState) (r : Bool) (s' : BState),
      liveOutPreds f s l = some (r, s') →
      ∀ x, s' x = .computing → s x = .computing := by
  intro l
  induction l with
  | nil =>
    intro s r s' h x hx
    rw [liveOutPreds] at h
    cases h
    exact hx
  | cons p ps ih =>
    intro s r s' h x hx
    rw [liveOutPreds] at h
    match hfp : f s p with
    | none => rw [hfp] at h; cases h
    | some (false, s₁) =>
      rw [hfp] at h
      cases h
      exact hf s p false s' hfp x hx
    | some (true, s₁) =>
      rw [hfp] at h
      exact hf s p true s₁ hfp x (ih s₁ r s' h x hx)

theorem isLiveOut_no_computing (P : Nat → List Nat) :
    ∀ (fuel : Nat) (s : BState) (b : Nat) (r : Bool) (s' : BState),
      isLiveOut P fuel s b = some (r, s') →
      ∀ x, s' x = .computing → s x = .computing := by
  intro fuel
  induction fuel with
  | zero => intro s b r s' h; cases h
  | succ fuel ih =>
    intro s b r s' h x hx
    rw [isLiveOut] at h
    match hsb : s b with
    | .notLiveOut => rw [hsb] at h; cases h; exact hx
    | .liveOut => rw [hsb] at h; cases h; exact hx
    | .computing => rw [hsb] at h; cases h; exact hx
    | .unknown =>
      rw [hsb] at h
      match hpreds : liveOutPreds (isLiveOut P fuel) (upd s b .computing) (P b) with
      | none => rw [hpreds] at h; cases h
      | some (false, s₁) =>
        rw [hpreds] at h
        cases h
        by_cases hxb : x = b
        · subst hxb
          exact absurd hx (by rw [upd]; simp)
        · rw [upd, if_neg hxb] at hx
          have := liveOutPreds_no_computing (isLiveOut P fuel)
            (fun s p r s' h => ih s p r s' h) (P b) (upd s b .computing)
            false s₁ hpreds x hx
          rw [upd, if_neg hxb] at this
          exact this
      | some (true, s₁) =>
        rw [hpreds] at h
        cases h
        by_cases hxb : x = b
        · subst hxb
          exact absurd hx (by rw [upd]; simp)
        · rw [upd, if_neg hxb] at hx
          have := liveOutPreds_no_computing (isLiveOut P fuel)
            (fun s p r s' h => ih s p r s' h) (P b) (upd s b .computing)
            true s₁ hpreds x hx
          rw [upd, if_neg hxb] at this
          exact this


/-! ## Lemmas about the availability scan (Part 2) -/

theorem updateAvailableValues_storeTo (v start span : Nat) (required : Finset Nat)
    (result : Nat → Option (Nat × Nat)) :
    ((updateAvailableValues (.storeTo v start span) required result).1 = true ↔
      ∃ j ∈ required, start ≤ j ∧ j < start + span) ∧
    (updateAvailableValues (.storeTo v start span) required result).2.1 =
      required.filter (fun j => ¬(start ≤ j ∧ j < start + span)) ∧
    ∀ j, (updateAvailableValues (.storeTo v start span) required result).2.2 j =
      if start ≤ j ∧ j < start + span ∧ j ∈ required then some (v, j - start)
      else result j := by
  induction span with
  | zero =>
    rw [updateAvailableValues]
    refine ⟨?_, ?_, ?_⟩
    · simp only [List.range_zero, List.foldl_nil]
      constructor
      · intro h; cases h
      · rintro ⟨j, -, h1, h2⟩; omega
    · simp only [List.range_zero, List.foldl_nil]
      refine (Finset.filter_true_of_mem ?_).symm
      intro j _; omega
    · intro j
      simp only [List.range_zero, List.foldl_nil]
      rw [if_neg]; omega
  | succ span ih =>
    have hstep : updateAvailableValues (.storeTo v start (span + 1)) required result =
        storeStep v start (updateAvailableValues (.storeTo v start span) required result) span := by
      rw [updateAvailableValues, updateAvailableValues, List.range_succ,
        List.foldl_append, List.foldl_cons, List.foldl_nil]
    obtain ⟨ih1, ih2, ih3⟩ := ih
    rw [hstep, storeStep]
    by_cases hmem : start + span ∈
        (updateAvailableValues (.storeTo v start span) required result).2.1
    · rw [if_pos hmem]
      have hreq : start + span ∈ required := by
        rw [ih2] at hmem
        exact (Finset.mem_filter.1 hmem).1
      refine ⟨?_, ?_, ?_⟩
      · simp only [true_iff]
        exact ⟨start + span, hreq, by omega, by omega⟩
      · rw [ih2]
        ext j
        simp only [Finset.mem_erase, Finset.mem_filter]
        constructor
        · rintro ⟨hne, hj, hcond⟩
          refine ⟨hj, ?_⟩
          rintro ⟨h1, h2⟩
          by_cases hjs : j = start + span
          · exact hne hjs
          · exact hcond ⟨h1, by omega⟩
        · rintro ⟨hj, hcond⟩
          refine ⟨?_, hj, ?_⟩
          · intro he; exact hcond (by omega)
          · rintro ⟨h1, h2⟩; exact hcond ⟨h1, by omega⟩
      · intro j
        simp only []
        by_cases hje : j = start + span
        · subst hje
          rw [if_pos rfl,
            if_pos (show start ≤ start + span ∧ start + span < start + (span + 1) ∧
              start + span ∈ required from ⟨by omega, by omega, hreq⟩)]
          rw [show start + span - start = span from by omega]
        · rw [if_neg hje, ih3 j]
          by_cases hc : start ≤ j ∧ j < start + span ∧ j ∈ required
          · rw [if_pos hc, if_pos ⟨hc.1, by omega, hc.2.2⟩]
          · rw [if_neg hc, if_neg]
            rintro ⟨h1, h2, h3⟩
            exact hc ⟨h1, by omega, h3⟩
    · rw [if_neg hmem]
      have hreq : ¬ start + span ∈ required := by
        intro hr
        apply hmem
        rw [ih2]
        exact Finset.mem_filter.2 ⟨hr, by omega⟩
      refine ⟨?_, ?_, ?_⟩
      · rw [ih1]
        constructor
        · rintro ⟨j, hj, h1, h2⟩
          exact ⟨j, hj, h1, by omega⟩
        · rintro ⟨j, hj, h1, h2⟩
          refine ⟨j, hj, h1, ?_⟩
          by_cases hjs : j = start + span
          · exact absurd hj (hjs ▸ hreq)
          · omega
      · rw [ih2]
        ext j
        simp only [Finset.mem_filter]
        constructor
        · rintro ⟨hj, hcond⟩
          refine ⟨hj, ?_⟩
          rintro ⟨h1, h2⟩
          by_cases hjs : j = start + span
          · exact hreq (hjs ▸ hj)
          · exact hcond ⟨h1, by omega⟩
        · rintro ⟨hj, hcond⟩
          exact ⟨hj, fun hc => hcond ⟨hc.1, by omega⟩⟩
      · intro j
        rw [ih3 j]
        by_cases hc : start ≤ j ∧ j < start + span ∧ j ∈ required
        · rw [if_pos hc, if_pos ⟨hc.1, by omega, hc.2.2⟩]
        · rw [if_neg hc, if_neg]
          rintro ⟨h1, h2, h3⟩
          apply hc
          refine ⟨h1, ?_, h3⟩
          by_cases hjs : j = start + span
          · exact absurd h3 (hjs ▸ hreq)
          · omega

theorem scanAvailable_found_false (scan : List (Option ScanInst))
    (required : Finset Nat) (result : Nat → Option (Nat × Nat)) :
    (scanAvailable scan true required result).1 = false := by
  induction scan generalizing required result with
  | nil => rfl
  | cons o rest ih =>
    match o with
    | none => rw [scanAvailable]; exact ih required result
    | some inst =>
      simp only [scanAvailable, Bool.true_or]
      by_cases h : (updateAvailableValues inst required result).2.1 = ∅
      · simp only [h, if_true]
        rfl
      · simp only [h, if_false]
        exact ih _ _

theorem scanAvailable_persists_some (scan : List (Option ScanInst))
    (found : Bool) (required : Finset Nat) (result : Nat → Option (Nat × Nat))
    (j : Nat) (h : result j ≠ none) :
    (scanAvailable scan found required result).2.2 j ≠ none := by
  induction scan generalizing found required result with
  | nil => exact h
  | cons o rest ih =>
    match o with
    | none => rw [scanAvailable]; exact ih found required result h
    | some inst =>
      have hu : (updateAvailableValues inst required result).2.2 j ≠ none := by
        match inst with
        | .clobber => exact h
        | .storeTo v start span =>
          rw [(updateAvailableValues_storeTo v start span required result).2.2 j]
          by_cases hc : start ≤ j ∧ j < start + span ∧ j ∈ required
          · rw [if_pos hc]; exact Option.some_ne_none _
          · rw [if_neg hc]; exact h
      simp only [scanAvailable]
      by_cases he : (updateAvailableValues inst required result).2.1 = ∅
      · simp only [he, if_true]; exact hu
      · simp only [he, if_false]
        exact ih _ _ _ hu

theorem scanAvailable_failure_iff (scan : List (Option ScanInst))
    (required : Finset Nat) (result : Nat → Option (Nat × Nat))
    (hnone : ∀ j, result j = none) :
    ((scanAvailable scan false required result).1 = true ↔
      ∀ j, (scanAvailable scan false required result).2.2 j = none) := by
  induction scan generalizing required result with
  | nil =>
    simp only [scanAvailable, Bool.not_false, true_iff]
    exact hnone
  | cons o rest ih =>
    match o with
    | none => rw [scanAvailable]; exact ih required result hnone
    | some inst =>
      simp only [scanAvailable]
      match inst with
      | .clobber =>
        rw [updateAvailableValues]
        simp only [if_true, Bool.or_false, Bool.not_false, true_iff]
        exact hnone
      | .storeTo v start span =>
        obtain ⟨hflag, hset, hfun⟩ :=
          updateAvailableValues_storeTo v start span required result
        by_cases hprod :
            (updateAvailableValues (.storeTo v start span) required result).1 = true
        · obtain ⟨j0, hj0, hs0, hs0'⟩ := hflag.1 hprod
          have hw : (updateAvailableValues (.storeTo v start span) required result).2.2 j0 ≠
              none := by
            rw [hfun j0, if_pos ⟨hs0, hs0', hj0⟩]
            exact Option.some_ne_none _
          rw [hprod]
          by_cases he :
              (updateAvailableValues (.storeTo v start span) required result).2.1 = ∅
          · simp only [he, if_true]
            exact iff_of_false (by decide) (fun hall => hw (hall j0))
          · simp only [he, if_false, Bool.or_true]
            refine iff_of_false ?_ ?_
            · rw [scanAvailable_found_false]
              exact Bool.false_ne_true
            · intro hall
              exact scanAvailable_persists_some rest true _ _ j0 hw (hall j0)
        · rw [Bool.not_eq_true] at hprod
          have hfeq : ∀ j,
              (updateAvailableValues (.storeTo v start span) required result).2.2 j =
                result j := by
            intro j
            rw [hfun j]
            by_cases hc : start ≤ j ∧ j < start + span ∧ j ∈ required
            · exact absurd (hflag.2 ⟨j, hc.2.2, hc.1, hc.2.1⟩)
                (by rw [hprod]; exact Bool.false_ne_true)
            · rw [if_neg hc]
          rw [hprod]
          by_cases he :
              (updateAvailableValues (.storeTo v start span) required result).2.1 = ∅
          · simp only [he, if_true, Bool.or_false]
            exact iff_of_true (by decide) (fun j => by rw [hfeq j]; exact hnone j)
          · simp only [he, if_false, Bool.or_false]
            exact ih _ _ (fun j => by rw [hfeq j]; exact hnone j)

/-! ## Claim C2 -/

/-- C2 (amended): `computeAvailableValues` succeeds immediately when no
subelements are demanded (zero-element aggregate); if the load's block
has no non-load use the scan is skipped and the result is failure;
during the backward scan a `Store`/`Assign` fills the still-demanded
bits of its access-path span with `(value, offset)` pairs and any other
non-load use clears the entire demanded set; cross-block propagation is
absent, and the result is *failure* exactly when the demanded set was
nonempty and the scan recorded no available value at all — a scan that
satisfies only some of the demanded bits returns success, with the
unfilled bits left for fresh loads. -/
theorem C2_computeAvailableValues_amended :
    (∀ (hasNLU : Bool) (scan : List (Option ScanInst))
      (result : Nat → Option (Nat × Nat)),
      computeAvailableValues hasNLU scan ∅ result = (false, ∅, result)) ∧
    (∀ (scan : List (Option ScanInst)) (required : Finset Nat)
      (result : Nat → Option (Nat × Nat)), required ≠ ∅ →
      computeAvailableValues false scan required result = (true, required, result)) ∧
    (∀ (v start span : Nat) (required : Finset Nat)
      (result : Nat → Option (Nat × Nat)),
      ((updateAvailableValues (.storeTo v start span) required result).1 = true ↔
        ∃ j ∈ required, start ≤ j ∧ j < start + span) ∧
      (updateAvailableValues (.storeTo v start span) required result).2.1 =
        required.filter (fun j => ¬(start ≤ j ∧ j < start + span)) ∧
      ∀ j, (updateAvailableValues (.storeTo v start span) required result).2.2 j =
        if start ≤ j ∧ j < start + span ∧ j ∈ required then some (v, j - start)
        else result j) ∧
    (∀ (required : Finset Nat) (result : Nat → Option (Nat × Nat)),
      updateAvailableValues .clobber required result = (false, ∅, result)) ∧
    (∀ (hasNLU : Bool) (scan : List (Option ScanInst)) (required : Finset Nat),
      required ≠ ∅ →
      ((computeAvailableValues hasNLU scan required (fun _ => none)).1 = true ↔
        ∀ j, (computeAvailableValues hasNLU scan required (fun _ => none)).2.2 j =
          none)) := by
  refine ⟨?_, ?_, ?_, ?_, ?_⟩
  · intro hasNLU scan result
    rw [computeAvailableValues, if_pos rfl]
  · intro scan required result hne
    rw [computeAvailableValues, if_neg hne, if_neg Bool.false_ne_true]
  · intro v start span required result
    exact updateAvailableValues_storeTo v start span required result
  · intro required result
    rfl
  · intro hasNLU scan required hne
    rw [computeAvailableValues, if_neg hne]
    match hasNLU with
    | true =>
      rw [if_pos rfl]
      exact scanAvailable_failure_iff scan required (fun _ => none) (fun _ => rfl)
    | false =>
      rw [if_neg Bool.false_ne_true]
      exact iff_of_true rfl (fun _ => rfl)

/-- C2 counterexample: with demanded bits `{0, 1}` and a block scan
holding a single store to subelement 0, the scan leaves bit 1
unsatisfied (it stays in the demanded set and no value is recorded for
it), yet `computeAvailableValues` returns success (`false`) — refuting
"returns failure whenever the backward scan of the load's own block
does not satisfy every demanded bit". -/
theorem C2_counterexample :
    (computeAvailableValues true [some (.storeTo 7 0 1)] {0, 1}
      (fun _ => none)).1 = false ∧
    (computeAvailableValues true [some (.storeTo 7 0 1)] {0, 1}
      (fun _ => none)).2.1 = {1} ∧
    (computeAvailableValues true [some (.storeTo 7 0 1)] {0, 1}
      (fun _ => none)).2.2 1 = none := by
  refine ⟨by decide, by decide, by decide⟩

/-! ## Claim C3 -/

/-- C3 (amended): over indices in `[0, getTupleElementCount T)` — the
tuple-only flattened range, not `[0, getNumSubElements T)` — the map
`i ↦ getPathStringToElement T i acc` is the depth-first left-to-right
leaf-path enumeration of `T` descending through tuple fields only
(structs and other non-tuples are leaves), emitting `.<name>` or
`.<ordinal>` per step: the i-th index yields exactly the i-th leaf
path, so the map is a bijection onto that enumeration. -/
theorem C3_pathString_amended (T : SType) (acc : String) :
    (leafPathsTuple T acc).length = getTupleElementCount T ∧
    ∀ i, i < getTupleElementCount T →
      getPathStringToElement T i acc = (leafPathsTuple T acc)[i]? :=
  ⟨leafPathsTuple_length T acc, fun i h => getPathStringToElement_eq_leafPath T acc i h⟩

/-- C3 witness: for the type `(a: Int, S)` (a named leaf field and an
unnamed struct field) the second flattened element maps to the second
enumerated leaf path. -/
theorem C3_pathString_amended_witness :
    getPathStringToElement
      (SType.tuple [(some "a", SType.leaf), (none, SType.strct [("x", SType.leaf)])])
      1 "v" =
    (leafPathsTuple
      (SType.tuple [(some "a", SType.leaf), (none, SType.strct [("x", SType.leaf)])])
      "v")[1]? :=
  (C3_pathString_amended _ "v").2 1 (by decide)

/-- C3 counterexample: for a two-field struct, `getNumSubElements` is 2
but `getPathStringToElement` returns the unchanged accumulator for
*both* indices (the source returns immediately on any non-tuple type),
so the map over `[0, getNumSubElements T)` is not injective and hence
not a bijection onto the two leaf field paths `.a`, `.b`. -/
theorem C3_counterexample :
    getNumSubElements (SType.strct [("a", SType.leaf), ("b", SType.leaf)]) = 2 ∧
    getPathStringToElement (SType.strct [("a", SType.leaf), ("b", SType.leaf)])
      0 "" = some "" ∧
    getPathStringToElement (SType.strct [("a", SType.leaf), ("b", SType.leaf)])
      1 "" = some "" ∧
    ¬ Function.Injective
        (fun i : Fin 2 =>
          getPathStringToElement (SType.strct [("a", SType.leaf), ("b", SType.leaf)])
            i.val "") := by
  refine ⟨by decide, rfl, rfl, by decide⟩

/-! ## Claim C4 -/

/-- C4: lowering of `Assign(src, dst)` with a known initialization flag
erases the assign (no `assign` appears in the replacement sequence) and
emits exactly a single `Store(src, dst)` when the flag is set or the
destination type is trivially copyable, and otherwise a load of the
destination, the store, and a destroy (the type-lowering collaborator)
of the loaded previous value, in that order. -/
theorem C4_lowerAssign (isInitialization trivialTy : Bool) (src dst gen : Nat) :
    (∀ i ∈ (LowerAssignInstruction isInitialization trivialTy src dst gen).1,
      ∀ s d, i.k ≠ InstKind.assign s d) ∧
    (isInitialization = true ∨ trivialTy = true →
      (LowerAssignInstruction isInitialization trivialTy src dst gen).1 =
        [⟨gen, .store src dst⟩]) ∧
    (isInitialization = false → trivialTy = false →
      (LowerAssignInstruction isInitialization trivialTy src dst gen).1 =
        [⟨gen, .load (gen + 1) dst⟩, ⟨gen + 2, .store src dst⟩,
          ⟨gen + 3, .destroyValue (gen + 1)⟩]) := by
  refine ⟨?_, ?_, ?_⟩
  · intro i hi s d
    rw [LowerAssignInstruction] at hi
    by_cases hcond : (isInitialization || trivialTy) = true
    · rw [if_pos hcond] at hi
      simp only [List.mem_singleton] at hi
      subst hi
      intro h
      exact InstKind.noConfusion h
    · rw [if_neg hcond] at hi
      simp only [List.mem_cons, List.not_mem_nil, or_false] at hi
      rcases hi with rfl | rfl | rfl <;> (intro h; exact InstKind.noConfusion h)
  · intro hdisj
    have hcond : (isInitialization || trivialTy) = true := by
      rcases hdisj with h | h
      · rw [h]; rfl
      · rw [h, Bool.or_true]
    rw [LowerAssignInstruction, if_pos hcond]
  · intro h1 h2
    have hcond : ¬ (isInitialization || trivialTy) = true := by
      rw [h1, h2]; exact Bool.false_ne_true
    rw [LowerAssignInstruction, if_neg hcond]

/-- C4 witness: the non-initialization, non-trivial lowering at
concrete arguments. -/
theorem C4_lowerAssign_witness :
    (LowerAssignInstruction false false 5 6 10).1 =
      [⟨10, .load 11 6⟩, ⟨12, .store 5 6⟩, ⟨13, .destroyValue 11⟩] :=
  (C4_lowerAssign false false 5 6 10).2.2 rfl rfl

/-! ## Lemmas about the constructor's availability initialization -/

theorem mkEPStep_blocks (st : EPState) (u : Nat × UseKind) :
    (mkEPStep st u).blocks = st.blocks := by
  rw [mkEPStep]
  by_cases h : u.2 = UseKind.load
  · rw [if_pos h]
  · rw [if_neg h]
    match findInst st.blocks u.1 with
    | none => rfl
    | some (bi, pos, ins) => rfl

theorem mkEPFold_blocks (uses : List (Nat × UseKind)) (st : EPState) :
    (uses.foldl mkEPStep st).blocks = st.blocks := by
  induction uses generalizing st with
  | nil => rfl
  | cons u us ih => rw [List.foldl_cons, ih, mkEPStep_blocks]

theorem mkEPFold_avail (uses : List (Nat × UseKind)) (st : EPState)
    (blocks : List (List Inst)) (hb : st.blocks = blocks) (b : Nat) :
    (uses.foldl mkEPStep st).avail b =
      if ∃ u ∈ uses, u.2 ≠ UseKind.load ∧ blockOf blocks u.1 = some b then
        .liveOut
      else st.avail b := by
  induction uses generalizing st with
  | nil =>
    rw [List.foldl_nil, if_neg]
    rintro ⟨u, hu, -⟩
    cases hu
  | cons u us ih =>
    rw [List.foldl_cons, ih (mkEPStep st u) (by rw [mkEPStep_blocks, hb])]
    by_cases hl : u.2 = UseKind.load
    · have hstep : mkEPStep st u = st := by
        rw [mkEPStep, if_pos hl]
      rw [hstep]
      by_cases hex : ∃ w ∈ us, w.2 ≠ UseKind.load ∧ blockOf blocks w.1 = some b
      · rw [if_pos hex, if_pos]
        obtain ⟨w, hw, h1, h2⟩ := hex
        exact ⟨w, List.mem_cons_of_mem u hw, h1, h2⟩
      · rw [if_neg hex, if_neg]
        rintro ⟨w, hw, h1, h2⟩
        rcases List.mem_cons.1 hw with rfl | hw'
        · exact h1 hl
        · exact hex ⟨w, hw', h1, h2⟩
    · match hf : findInst blocks u.1 with
      | none =>
        have hstep : mkEPStep st u = st := by
          rw [mkEPStep, if_neg hl, hb, hf]
        rw [hstep]
        by_cases hex : ∃ w ∈ us, w.2 ≠ UseKind.load ∧ blockOf blocks w.1 = some b
        · rw [if_pos hex, if_pos]
          obtain ⟨w, hw, h1, h2⟩ := hex
          exact ⟨w, List.mem_cons_of_mem u hw, h1, h2⟩
        · rw [if_neg hex, if_neg]
          rintro ⟨w, hw, h1, h2⟩
          rcases List.mem_cons.1 hw with rfl | hw'
          · rw [blockOf, hf] at h2
            cases h2
          · exact hex ⟨w, hw', h1, h2⟩
      | some (bi, pos, ins) =>
        have hstep : (mkEPStep st u).avail = upd st.avail bi .liveOut := by
          rw [mkEPStep, if_neg hl, hb, hf]
        rw [hstep]
        have hublk : blockOf blocks u.1 = some bi := by
          rw [blockOf, hf]
          rfl
        by_cases hex : ∃ w ∈ us, w.2 ≠ UseKind.load ∧ blockOf blocks w.1 = some b
        · rw [if_pos hex, if_pos]
          obtain ⟨w, hw, h1, h2⟩ := hex
          exact ⟨w, List.mem_cons_of_mem u hw, h1, h2⟩
        · rw [if_neg hex]
          by_cases hbi : b = bi
          · subst hbi
            rw [if_pos ⟨u, List.mem_cons_self u us, hl, hublk⟩, upd, if_pos rfl]
          · rw [upd, if_neg hbi, if_neg]
            rintro ⟨w, hw, h1, h2⟩
            rcases List.mem_cons.1 hw with rfl | hw'
            · rw [hublk] at h2
              cases h2
              exact hbi rfl
            · exact hex ⟨w, hw', h1, h2⟩

/-! ## Lemma for the backward scan of the DI check -/

theorem scanNonLoadUses_eq_find (nlu : List Nat) (root : Nat) (l : List Inst) :
    scanNonLoadUses nlu root l =
      (l.find? (fun i => decide (i.iid ∈ nlu))).map
        (fun j => if j.iid = root then DIKind.no else DIKind.yes) := by
  induction l with
  | nil => rfl
  | cons i rest ih =>
    rw [scanNonLoadUses]
    by_cases h : i.iid ∈ nlu
    · rw [if_pos h, List.find?_cons_of_pos _ (by simpa using h)]
      simp only [Option.map_some']
      by_cases hr : i.iid = root
      · rw [if_pos hr, if_pos hr]
      · rw [if_neg hr, if_neg hr]
    · rw [if_neg h, List.find?_cons_of_neg _ (by simpa using h), ih]

theorem isLiveOut_cached_liveOut (P : Nat → List Nat) (fuel : Nat) (s : BState)
    (b : Nat) (h : s b = .liveOut) : isLiveOut P (fuel + 1) s b = some (true, s) := by
  rw [isLiveOut, h]

theorem isLiveOut_cached_notLiveOut (P : Nat → List Nat) (fuel : Nat) (s : BState)
    (b : Nat) (h : s b = .notLiveOut) :
    isLiveOut P (fuel + 1) s b = some (false, s) := by
  rw [isLiveOut, h]

theorem isLiveOut_cached_computing (P : Nat → List Nat) (fuel : Nat) (s : BState)
    (b : Nat) (h : s b = .computing) : isLiveOut P (fuel + 1) s b = some (true, s) := by
  rw [isLiveOut, h]

theorem isLiveOut_unknown_true_iff (P : Nat → List Nat) (fuel : Nat) (s : BState)
    (b : Nat) (s' : BState) (hu : s b = .unknown) :
    isLiveOut P (fuel + 1) s b = some (true, s') ↔
      ∃ s₁, SeqTrue (isLiveOut P fuel) (upd s b .computing) (P b) s₁ ∧
        s' = upd s₁ b .liveOut := by
  rw [isLiveOut, hu]
  match hlp : liveOutPreds (isLiveOut P fuel) (upd s b .computing) (P b) with
  | none =>
    refine iff_of_false (by intro h; cases h) ?_
    rintro ⟨s₁, hseq, -⟩
    rw [← liveOutPreds_true_iff, hlp] at hseq
    cases hseq
  | some (false, s₁) =>
    refine iff_of_false (by intro h; cases h) ?_
    rintro ⟨s₂, hseq, -⟩
    rw [← liveOutPreds_true_iff, hlp] at hseq
    cases hseq
  | some (true, s₁) =>
    constructor
    · intro h
      cases h
      exact ⟨s₁, (liveOutPreds_true_iff _ _ _ _).1 hlp, rfl⟩
    · rintro ⟨s₂, hseq, rfl⟩
      rw [← liveOutPreds_true_iff, hlp] at hseq
      cases hseq
      rfl

theorem isLiveOut_unknown_false_iff (P : Nat → List Nat) (fuel : Nat) (s : BState)
    (b : Nat) (s' : BState) (hu : s b = .unknown) :
    isLiveOut P (fuel + 1) s b = some (false, s') ↔
      ∃ l₁ p l₂ s₁ s₂, P b = l₁ ++ p :: l₂ ∧
        SeqTrue (isLiveOut P fuel) (upd s b .computing) l₁ s₁ ∧
        isLiveOut P fuel s₁ p = some (false, s₂) ∧
        s' = upd s₂ b .notLiveOut := by
  rw [isLiveOut, hu]
  match hlp : liveOutPreds (isLiveOut P fuel) (upd s b .computing) (P b) with
  | none =>
    refine iff_of_false (by intro h; cases h) ?_
    rintro ⟨l₁, p, l₂, s₁, s₂, hsplit, hseq, hp, -⟩
    have : liveOutPreds (isLiveOut P fuel) (upd s b .computing) (P b) =
        some (false, s₂) :=
      (liveOutPreds_false_iff _ _ _ _).2 ⟨l₁, p, l₂, s₁, hsplit, hseq, hp⟩
    rw [hlp] at this
    cases this
  | some (true, s₁) =>
    refine iff_of_false (by intro h; cases h) ?_
    rintro ⟨l₁, p, l₂, s₂, s₃, hsplit, hseq, hp, -⟩
    have : liveOutPreds (isLiveOut P fuel) (upd s b .computing) (P b) =
        some (false, s₃) :=
      (liveOutPreds_false_iff _ _ _ _).2 ⟨l₁, p, l₂, s₂, hsplit, hseq, hp⟩
    rw [hlp] at this
    cases this
  | some (false, s₁) =>
    constructor
    · intro h
      cases h
      obtain ⟨l₁, p, l₂, s₂, hsplit, hseq, hp⟩ :=
        (liveOutPreds_false_iff _ _ _ _).1 hlp
      exact ⟨l₁, p, l₂, s₂, s₁, hsplit, hseq, hp, rfl⟩
    · rintro ⟨l₁, p, l₂, s₂, s₃, hsplit, hseq, hp, rfl⟩
      have : liveOutPreds (isLiveOut P fuel) (upd s b .computing) (P b) =
          some (false, s₃) :=
        (liveOutPreds_false_iff _ _ _ _).2 ⟨l₁, p, l₂, s₂, hsplit, hseq, hp⟩
      rw [hlp] at this
      cases this
      rfl

theorem mkEPRootFix_avail_none (rootIid : Nat) (st1 : EPState) (b : Nat)
    (h : findInst st1.blocks rootIid = none) :
    (mkEPRootFix rootIid st1).avail b = st1.avail b := by
  rw [mkEPRootFix, h]

theorem mkEPRootFix_avail_some (rootIid : Nat) (st1 : EPState) (b : Nat)
    (rootBi rpos : Nat) (rins : Inst)
    (h : findInst st1.blocks rootIid = some (rootBi, rpos, rins)) :
    (mkEPRootFix rootIid st1).avail b =
      (if st1.avail rootBi = .unknown then upd st1.avail rootBi .notLiveOut
       else st1.avail) b := by
  rw [mkEPRootFix, h]

theorem mkElementPromotion_avail (blocks : List (List Inst))
    (gen rootIid rootAddr : Nat) (trivialTy : Bool)
    (uses : List (Nat × UseKind)) (b : Nat) :
    (mkElementPromotion blocks gen rootIid rootAddr trivialTy uses).avail b =
      if ∃ u ∈ uses, u.2 ≠ UseKind.load ∧ blockOf blocks u.1 = some b then
        .liveOut
      else if blockOf blocks rootIid = some b then .notLiveOut
      else .unknown := by
  rw [mkElementPromotion]
  have hb : (uses.foldl mkEPStep
      { blocks := blocks, gen := gen, rootIid := rootIid, rootAddr := rootAddr,
        trivialTy := trivialTy,
        uses := uses.map (fun u => (some u.1, u.2)),
        nonLoadUses := [], hasNLU := fun _ => false, avail := fun _ => .unknown,
        hasAnyEscape := false, hadError := false, diags := [],
        promoted := [] }).blocks = blocks := mkEPFold_blocks uses _
  have hfold := mkEPFold_avail uses
    { blocks := blocks, gen := gen, rootIid := rootIid, rootAddr := rootAddr,
      trivialTy := trivialTy,
      uses := uses.map (fun u => (some u.1, u.2)),
      nonLoadUses := [], hasNLU := fun _ => false, avail := fun _ => .unknown,
      hasAnyEscape := false, hadError := false, diags := [], promoted := [] }
    blocks rfl
  match hroot : findInst blocks rootIid with
  | none =>
    rw [mkEPRootFix_avail_none _ _ b (by rw [hb]; exact hroot), hfold b]
    have hrb : ¬ blockOf blocks rootIid = some b := by
      rw [blockOf, hroot]
      intro h
      cases h
    by_cases hex : ∃ u ∈ uses, u.2 ≠ UseKind.load ∧ blockOf blocks u.1 = some b
    · rw [if_pos hex, if_pos hex]
    · rw [if_neg hex, if_neg hex, if_neg hrb]
  | some (rootBi, rpos, rins) =>
    rw [mkEPRootFix_avail_some _ _ b rootBi rpos rins (by rw [hb]; exact hroot)]
    have hrb : blockOf blocks rootIid = some rootBi := by
      rw [blockOf, hroot]
      rfl
    rw [hfold rootBi]
    by_cases hexr : ∃ u ∈ uses, u.2 ≠ UseKind.load ∧ blockOf blocks u.1 = some rootBi
    · rw [if_pos hexr, if_neg (by intro h; cases h)]
      rw [hfold b]
      by_cases hex : ∃ u ∈ uses, u.2 ≠ UseKind.load ∧ blockOf blocks u.1 = some b
      · rw [if_pos hex, if_pos hex]
      · rw [if_neg hex, if_neg hex, if_neg]
        intro h
        rw [hrb] at h
        cases h
        exact hex hexr
    · rw [if_neg hexr, if_pos rfl, upd]
      by_cases hbb : b = rootBi
      · subst hbb
        rw [if_pos rfl, if_neg, if_pos hrb]
        intro hex
        exact hexr hex
      · rw [if_neg hbb, hfold b]
        by_cases hex : ∃ u ∈ uses, u.2 ≠ UseKind.load ∧ blockOf blocks u.1 = some b
        · rw [if_pos hex, if_pos hex]
        · rw [if_neg hex, if_neg hex, if_neg]
          intro h
          rw [hrb] at h
          cases h
          exact hbb rfl

/-! ## Claim C5 -/

/-- C5: live-out computation is the tri-state recursion of the claim —
a cached `LiveOut`/`NotLiveOut` answer is returned with the table
unchanged; a block in the `Computing` state answers `true`
(optimistic cycle assumption); an `Unknown` block is first marked
`Computing`, its predecessors are queried in order, and the block is
finalized `NotLiveOut` (answer `false`) as soon as one predecessor
answers `false`, else finalized `LiveOut` (answer `true`).  Before
phase 1, the constructor pre-marks every block containing a non-load
use `LiveOut`, marks the allocation's own block `NotLiveOut` unless it
also has a non-load use, and leaves every other block `Unknown`. -/
theorem C5_liveOut_algorithm :
    (∀ (P : Nat → List Nat) (fuel : Nat) (s : BState) (b : Nat),
      s b = .liveOut → isLiveOut P (fuel + 1) s b = some (true, s)) ∧
    (∀ (P : Nat → List Nat) (fuel : Nat) (s : BState) (b : Nat),
      s b = .notLiveOut → isLiveOut P (fuel + 1) s b = some (false, s)) ∧
    (∀ (P : Nat → List Nat) (fuel : Nat) (s : BState) (b : Nat),
      s b = .computing → isLiveOut P (fuel + 1) s b = some (true, s)) ∧
    (∀ (P : Nat → List Nat) (fuel : Nat) (s : BState) (b : Nat) (s' : BState),
      s b = .unknown →
      (isLiveOut P (fuel + 1) s b = some (true, s') ↔
        ∃ s₁, SeqTrue (isLiveOut P fuel) (upd s b .computing) (P b) s₁ ∧
          s' = upd s₁ b .liveOut) ∧
      (isLiveOut P (fuel + 1) s b = some (false, s') ↔
        ∃ l₁ p l₂ s₁ s₂, P b = l₁ ++ p :: l₂ ∧
          SeqTrue (isLiveOut P fuel) (upd s b .computing) l₁ s₁ ∧
          isLiveOut P fuel s₁ p = some (false, s₂) ∧
          s' = upd s₂ b .notLiveOut)) ∧
    (∀ (blocks : List (List Inst)) (gen rootIid rootAddr : Nat)
      (trivialTy : Bool) (uses : List (Nat × UseKind)) (b : Nat),
      (mkElementPromotion blocks gen rootIid rootAddr trivialTy uses).avail b =
        if ∃ u ∈ uses, u.2 ≠ UseKind.load ∧ blockOf blocks u.1 = some b then
          .liveOut
        else if blockOf blocks rootIid = some b then .notLiveOut
        else .unknown) :=
  ⟨isLiveOut_cached_liveOut, isLiveOut_cached_notLiveOut,
    isLiveOut_cached_computing,
    fun P fuel s b s' hu =>
      ⟨isLiveOut_unknown_true_iff P fuel s b s' hu,
        isLiveOut_unknown_false_iff P fuel s b s' hu⟩,
    mkElementPromotion_avail⟩

/-- C5 witness: the cached-`LiveOut` case at a concrete table, and the
initialization at a concrete allocation (`witnessEP` is built over
`simpleBlocks`, whose single block holds a store — a non-load use — so
that block is pre-marked `LiveOut` while block 1 stays `Unknown`). -/
theorem C5_liveOut_algorithm_witness :
    isLiveOut noPreds 1 (upd allUnknown 0 .liveOut) 0 =
      some (true, upd allUnknown 0 .liveOut) ∧
    witnessEP.avail 0 = .liveOut ∧ witnessEP.avail 1 = .unknown := by
  refine ⟨C5_liveOut_algorithm.1 noPreds 0 _ 0 rfl, ?_, ?_⟩
  · rw [show witnessEP.avail 0 =
        (mkElementPromotion simpleBlocks 200 0 101 false
          (collectAddrUses simpleBlocks 101 ++
            collectBoxReleases simpleBlocks 100)).avail 0 from rfl,
      C5_liveOut_algorithm.2.2.2.2]
    rw [if_pos (by decide)]
  · rw [show witnessEP.avail 1 =
        (mkElementPromotion simpleBlocks 200 0 101 false
          (collectAddrUses simpleBlocks 101 ++
            collectBoxReleases simpleBlocks 100)).avail 1 from rfl,
      C5_liveOut_algorithm.2.2.2.2]
    rw [if_neg (by decide), if_neg (by decide)]

/-! ## Claim C9 -/

/-- C9: after an `isLiveOut` call that completes (fuel did not run
out), no block is left in the `Computing` state: when the initial
table has no `Computing` entry — as at every outermost call — the
final table has none either (every block marked `Computing` during the
call was finalized before its frame returned). -/
theorem C9_no_computing_left (P : Nat → List Nat) (fuel : Nat) (s : BState)
    (b : Nat) (r : Bool) (s' : BState)
    (h : isLiveOut P fuel s b = some (r, s'))
    (h0 : ∀ x, s x ≠ .computing) : ∀ x, s' x ≠ .computing :=
  fun x hx => h0 x (isLiveOut_no_computing P fuel s b r s' h x hx)

/-- C9 witness: a concrete completed call from the all-unknown table,
checked at block 0 (the one the call itself marked `Computing`). -/
theorem C9_no_computing_left_witness :
    upd (upd allUnknown 0 .computing) 0 .liveOut 0 ≠ .computing :=
  C9_no_computing_left noPreds 2 allUnknown 0 true
    (upd (upd allUnknown 0 .computing) 0 .liveOut) rfl
    (fun _ hx => Availability.noConfusion hx) 0

/-! ## Claim C1 -/

/-- C1: the DI check for a use instruction `I` (id `iid`, at position
`pos` of block `bi`): when the block has a non-load use and the
backward scan from `I` (the reversed prefix of the block before `pos`)
finds an instruction of the non-load-use set, the first one found is
decisive — `No` if it is the allocation itself, `Yes` otherwise, with
the availability table unchanged; when no such instruction precedes
`I` (including when the block has no non-load use at all), the answer
is `Yes` exactly when querying every predecessor of the block for
live-out succeeds (`SeqTrue`), and `No` exactly when the queries reach
a predecessor that answers `false`. -/
theorem C1_checkDefinitelyInit (P : Nat → List Nat) (fuel : Nat) (st : EPState)
    (iid bi pos : Nat) (ins : Inst)
    (hfind : findInst st.blocks iid = some (bi, pos, ins)) :
    (st.hasNLU bi = true →
      ∀ j, (((st.blocks.getD bi []).take pos).reverse.find?
          (fun i => decide (i.iid ∈ st.nonLoadUses))) = some j →
        checkDefinitelyInit P fuel st iid =
          some ((if j.iid = st.rootIid then DIKind.no else DIKind.yes),
            st.avail)) ∧
    ((st.hasNLU bi = false ∨
      (((st.blocks.getD bi []).take pos).reverse.find?
        (fun i => decide (i.iid ∈ st.nonLoadUses))) = none) →
      (∀ s', checkDefinitelyInit P fuel st iid = some (DIKind.yes, s') ↔
        SeqTrue (isLiveOut P fuel) st.avail (P bi) s') ∧
      (∀ s', checkDefinitelyInit P fuel st iid = some (DIKind.no, s') ↔
        ∃ l₁ p l₂ s₁, P bi = l₁ ++ p :: l₂ ∧
          SeqTrue (isLiveOut P fuel) st.avail l₁ s₁ ∧
          isLiveOut P fuel s₁ p = some (false, s'))) := by
  have hck : checkDefinitelyInit P fuel st iid =
      match
        (if st.hasNLU bi then
          scanNonLoadUses st.nonLoadUses st.rootIid
            (((st.blocks.getD bi []).take pos).reverse)
        else none) with
      | some d => some (d, st.avail)
      | none =>
        match liveOutPreds (isLiveOut P fuel) st.avail (P bi) with
        | none => none
        | some (true, s') => some (.yes, s')
        | some (false, s') => some (.no, s') := by
    rw [checkDefinitelyInit, hfind]
  constructor
  · intro hnlu j hj
    rw [hck, if_pos hnlu, scanNonLoadUses_eq_find, hj]
    rfl
  · intro hnone
    have hscan : (if st.hasNLU bi then
        scanNonLoadUses st.nonLoadUses st.rootIid
          (((st.blocks.getD bi []).take pos).reverse)
      else none) = none := by
      rcases hnone with h | h
      · rw [h]
        rfl
      · by_cases hb : st.hasNLU bi
        · rw [if_pos hb, scanNonLoadUses_eq_find, h]
          rfl
        · rw [if_neg hb]
    rw [hck, hscan]
    constructor
    · intro s'
      match hlp : liveOutPreds (isLiveOut P fuel) st.avail (P bi) with
      | none =>
        refine iff_of_false (by intro h; cases h) ?_
        intro hseq
        rw [← liveOutPreds_true_iff, hlp] at hseq
        cases hseq
      | some (false, s₁) =>
        refine iff_of_false (by intro h; cases h) ?_
        intro hseq
        rw [← liveOutPreds_true_iff, hlp] at hseq
        cases hseq
      | some (true, s₁) =>
        constructor
        · intro h
          cases h
          exact (liveOutPreds_true_iff _ _ _ _).1 hlp
        · intro hseq
          rw [← liveOutPreds_true_iff, hlp] at hseq
          cases hseq
          rfl
    · intro s'
      match hlp : liveOutPreds (isLiveOut P fuel) st.avail (P bi) with
      | none =>
        refine iff_of_false (by intro h; cases h) ?_
        rintro ⟨l₁, p, l₂, s₁, hsplit, hseq, hp⟩
        have : liveOutPreds (isLiveOut P fuel) st.avail (P bi) =
            some (false, s') :=
          (liveOutPreds_false_iff _ _ _ _).2 ⟨l₁, p, l₂, s₁, hsplit, hseq, hp⟩
        rw [hlp] at this
        cases this
      | some (true, s₁) =>
        refine iff_of_false (by intro h; cases h) ?_
        rintro ⟨l₁, p, l₂, s₁', hsplit, hseq, hp⟩
        have : liveOutPreds (isLiveOut P fuel) st.avail (P bi) =
            some (false, s') :=
          (liveOutPreds_false_iff _ _ _ _).2 ⟨l₁, p, l₂, s₁', hsplit, hseq, hp⟩
        rw [hlp] at this
        cases this
      | some (false, s₁) =>
        constructor
        · intro h
          cases h
          exact (liveOutPreds_false_iff _ _ _ _).1 hlp
        · rintro ⟨l₁, p, l₂, s₁', hsplit, hseq, hp⟩
          have : liveOutPreds (isLiveOut P fuel) st.avail (P bi) =
              some (false, s') :=
            (liveOutPreds_false_iff _ _ _ _).2 ⟨l₁, p, l₂, s₁', hsplit, hseq, hp⟩
          rw [hlp] at this
          cases this
          rfl

/-- C1 witness: in `witnessEP` (built over `simpleBlocks`), the
backward scan from the load at position 2 finds the store — a non-load
use other than the allocation — so the check answers `Yes` with the
table unchanged. -/
theorem C1_checkDefinitelyInit_witness :
    checkDefinitelyInit noPreds 1 witnessEP 2 =
      some (DIKind.yes, witnessEP.avail) :=
  (C1_checkDefinitelyInit noPreds 1 witnessEP 2 0 2
      ⟨2, InstKind.load 60 101⟩ rfl).1
    (by decide) ⟨1, InstKind.store 50 101⟩ (by decide)

/-! ## Lemmas about the error policy of one ElementPromotion run -/

theorem scanNonLoadUses_ne_part (nlu : List Nat) (root : Nat) (l : List Inst)
    (d : DIKind) (h : scanNonLoadUses nlu root l = some d) : d ≠ DIKind.part := by
  induction l with
  | nil => cases h
  | cons i rest ih =>
    rw [scanNonLoadUses] at h
    by_cases hm : i.iid ∈ nlu
    · rw [if_pos hm] at h
      by_cases hr : i.iid = root
      · rw [if_pos hr] at h
        cases h
        intro hh
        cases hh
      · rw [if_neg hr] at h
        cases h
        intro hh
        cases hh
    · rw [if_neg hm] at h
      exact ih h

theorem checkDefinitelyInit_ne_part (P : Nat → List Nat) (fuel : Nat)
    (st : EPState) (iid : Nat) (d : DIKind) (s' : BState)
    (h : checkDefinitelyInit P fuel st iid = some (d, s')) : d ≠ DIKind.part := by
  rw [checkDefinitelyInit.eq_def] at h
  split at h
  · cases h
  · split at h
    · next d0 heq =>
      cases h
      split at heq
      · exact scanNonLoadUses_ne_part _ _ _ _ heq
      · cases heq
    · split at h
      · cases h
      · cases h
        intro hh
        cases hh
      · cases h
        intro hh
        cases hh

theorem handleLoadUse_spec (P : Nat → List Nat) (fuel : Nat) (st : EPState)
    (iid : Nat) (st' : EPState) (h : handleLoadUse P fuel st iid = some st') :
    HandlerSpec st st' := by
  rw [handleLoadUse.eq_def] at h
  split at h
  · cases h
  · split at h
    · cases h
      exact ⟨rfl, Or.inl ⟨rfl, rfl⟩⟩
    · cases h
      exact ⟨rfl, Or.inr ⟨Diag.variable_used_before_initialized,
        fun hh => Diag.noConfusion hh, fun hh => Diag.noConfusion hh, rfl, rfl⟩⟩

theorem handleInOutUse_spec (P : Nat → List Nat) (fuel : Nat) (st : EPState)
    (iid : Nat) (st' : EPState) (h : handleInOutUse P fuel st iid = some st') :
    HandlerSpec st st' := by
  rw [handleInOutUse.eq_def] at h
  split at h
  · cases h
  · split at h
    · cases h
      exact ⟨rfl, Or.inl ⟨rfl, rfl⟩⟩
    · cases h
      exact ⟨rfl, Or.inr ⟨Diag.variable_inout_before_initialized,
        fun hh => Diag.noConfusion hh, fun hh => Diag.noConfusion hh, rfl, rfl⟩⟩

theorem handleRelease_spec (P : Nat → List Nat) (fuel : Nat) (st : EPState)
    (iid : Nat) (st' : EPState) (h : handleRelease P fuel st iid = some st') :
    HandlerSpec st st' := by
  rw [handleRelease.eq_def] at h
  split at h
  · cases h
  · split at h
    · cases h
      exact ⟨rfl, Or.inl ⟨rfl, rfl⟩⟩
    · cases h
      exact ⟨rfl, Or.inr ⟨Diag.variable_destroyed_before_initialized,
        fun hh => Diag.noConfusion hh, fun hh => Diag.noConfusion hh, rfl, rfl⟩⟩

theorem handleEscape_spec (P : Nat → List Nat) (fuel : Nat) (st : EPState)
    (iid : Nat) (st' : EPState) (h : handleEscape P fuel st iid = some st') :
    HandlerSpec st st' := by
  rw [handleEscape.eq_def] at h
  split at h
  · cases h
  · split at h
    · cases h
      exact ⟨rfl, Or.inl ⟨rfl, rfl⟩⟩
    · split at h
      · cases h
      · split at h
        · cases h
          exact ⟨rfl, Or.inr ⟨Diag.global_variable_function_use_uninit,
            fun hh => Diag.noConfusion hh, fun hh => Diag.noConfusion hh, rfl, rfl⟩⟩
        · cases h
          exact ⟨rfl, Or.inr ⟨Diag.variable_escape_before_initialized,
            fun hh => Diag.noConfusion hh, fun hh => Diag.noConfusion hh, rfl, rfl⟩⟩

theorem registerInserted_err (st : EPState) (ni : Inst) :
    (registerInserted st ni).promoted = st.promoted ∧
    (registerInserted st ni).hadError = st.hadError ∧
    (registerInserted st ni).diags = st.diags := by
  rw [registerInserted.eq_def]
  split
  · exact ⟨rfl, rfl, rfl⟩
  · exact ⟨rfl, rfl, rfl⟩
  · exact ⟨rfl, rfl, rfl⟩

theorem registerInserted_foldl_err (l : List Inst) (st : EPState) :
    (l.foldl registerInserted st).promoted = st.promoted ∧
    (l.foldl registerInserted st).hadError = st.hadError ∧
    (l.foldl registerInserted st).diags = st.diags := by
  induction l generalizing st with
  | nil => exact ⟨rfl, rfl, rfl⟩
  | cons ni l ih =>
    rw [List.foldl_cons]
    obtain ⟨h1, h2, h3⟩ := ih (registerInserted st ni)
    obtain ⟨g1, g2, g3⟩ := registerInserted_err st ni
    exact ⟨by rw [h1, g1], by rw [h2, g2], by rw [h3, g3]⟩

theorem handleStoreUse_spec (P : Nat → List Nat) (fuel : Nat) (st : EPState)
    (iid : Nat) (isPartialStore : Bool) (st' : EPState)
    (h : handleStoreUse P fuel st iid isPartialStore = some st') :
    HandlerSpec st st' := by
  rw [handleStoreUse.eq_def] at h
  split at h
  · cases h
  · split at h
    · cases h
      exact ⟨rfl, Or.inl ⟨rfl, rfl⟩⟩
    · split at h
      · cases h
      · next d av hdi =>
        split at h
        · cases h
          exact ⟨rfl, Or.inr ⟨Diag.struct_not_fully_initialized,
            fun hh => Diag.noConfusion hh, fun hh => Diag.noConfusion hh, rfl, rfl⟩⟩
        · split at h
          · next hpart =>
            exact absurd hpart (checkDefinitelyInit_ne_part P fuel st iid d av hdi)
          · split at h
            · cases h
              exact ⟨rfl, Or.inl ⟨rfl, rfl⟩⟩
            · cases h
              obtain ⟨h1, h2, h3⟩ := registerInserted_foldl_err
                (LowerAssignInstruction (decide (d = DIKind.no))
                  st.trivialTy _ _ st.gen).1 _
              exact ⟨h1, Or.inl ⟨h2, h3⟩⟩
            · cases h
              exact ⟨rfl, Or.inl ⟨rfl, rfl⟩⟩

theorem processUse_spec (P : Nat → List Nat) (fuel : Nat) (st : EPState)
    (entry : Option Nat × UseKind) (st' : EPState)
    (h : processUse P fuel st entry = some st') : HandlerSpec st st' := by
  match entry with
  | (none, k) =>
    cases h
    exact ⟨rfl, Or.inl ⟨rfl, rfl⟩⟩
  | (some iid, .load) => exact handleLoadUse_spec P fuel st iid st' h
  | (some iid, .store) => exact handleStoreUse_spec P fuel st iid false st' h
  | (some iid, .partStore) => exact handleStoreUse_spec P fuel st iid true st' h
  | (some iid, .inOutUse) => exact handleInOutUse_spec P fuel st iid st' h
  | (some iid, .escape) => exact handleEscape_spec P fuel st iid st' h
  | (some iid, .release) => exact handleRelease_spec P fuel st iid st' h

theorem doItLoop_spec (P : Nat → List Nat) (liveFuel : Nat) :
    ∀ (fuel i : Nat) (st st' : EPState),
      doItLoop P liveFuel fuel i st = some st' →
      st.hadError = false → st.diags = [] → st.promoted = [] →
      st'.promoted = [] ∧
      ((st'.hadError = false ∧ st'.diags = []) ∨
        (∃ e, e ≠ Diag.variable_defined_here ∧
          e ≠ Diag.variable_initialized_on_some_paths ∧
          st'.hadError = true ∧
          st'.diags = [e, Diag.variable_defined_here])) := by
  intro fuel
  induction fuel with
  | zero =>
    intro i st st' h
    cases h
  | succ fuel ih =>
    intro i st st' h he hd hp
    rw [doItLoop] at h
    split at h
    · split at h
      · cases h
      · next st₁ hp1 =>
        obtain ⟨hprom, hcase⟩ := processUse_spec P liveFuel st _ st₁ hp1
        split at h
        · next herr =>
          cases h
          rcases hcase with ⟨he1, hd1⟩ | ⟨e, hn1, hn2, he1, hd1⟩
          · rw [he1, he] at herr
            cases herr
          · refine ⟨by rw [hprom, hp], Or.inr ⟨e, hn1, hn2, he1, ?_⟩⟩
            rw [hd1, hd]
            rfl
        · next herr =>
          rcases hcase with ⟨he1, hd1⟩ | ⟨e, hn1, hn2, he1, hd1⟩
          · exact ih (i + 1) st₁ st' h (by rw [he1, he]) (by rw [hd1, hd])
              (by rw [hprom, hp])
          · rw [he1] at herr
            exact absurd rfl herr
    · cases h
      exact ⟨hp, Or.inl ⟨he, hd⟩⟩

theorem promoteLoad_preserves (st : EPState) (iid : Nat) (st' : EPState)
    (h : promoteLoad st iid = some st') :
    st'.diags = st.diags ∧ st'.hadError = st.hadError := by
  rw [promoteLoad.eq_def] at h
  split at h
  · cases h
  · split at h
    · split at h
      · cases h
        exact ⟨rfl, rfl⟩
      · split at h
        · cases h
        · split at h
          · cases h
            exact ⟨rfl, rfl⟩
          · split at h
            · cases h
              exact ⟨rfl, rfl⟩
            · cases h
            · cases h
              exact ⟨rfl, rfl⟩
    · cases h
      exact ⟨rfl, rfl⟩

theorem promoteLoadStep_preserves (st : EPState) (u : Option Nat × UseKind)
    (st' : EPState) (h : promoteLoadStep st u = some st') :
    st'.diags = st.diags ∧ st'.hadError = st.hadError := by
  rw [promoteLoadStep.eq_def] at h
  split at h
  · exact promoteLoad_preserves st _ st' h
  · cases h
    exact ⟨rfl, rfl⟩

theorem promoteLoadsGo_preserves (l : List (Option Nat × UseKind))
    (st st' : EPState) (h : promoteLoadsGo l st = some st') :
    st'.diags = st.diags ∧ st'.hadError = st.hadError := by
  induction l generalizing st with
  | nil =>
    cases h
    exact ⟨rfl, rfl⟩
  | cons u us ih =>
    rw [promoteLoadsGo] at h
    split at h
    · cases h
    · next st₁ hstep =>
      obtain ⟨h1, h2⟩ := promoteLoadStep_preserves st u st₁ hstep
      obtain ⟨g1, g2⟩ := ih st₁ h
      exact ⟨by rw [g1, h1], by rw [g2, h2]⟩

theorem mkEPStep_err (st : EPState) (u : Nat × UseKind) :
    (mkEPStep st u).hadError = st.hadError ∧
    (mkEPStep st u).diags = st.diags ∧
    (mkEPStep st u).promoted = st.promoted := by
  rw [mkEPStep.eq_def]
  split
  · exact ⟨rfl, rfl, rfl⟩
  · split
    · exact ⟨rfl, rfl, rfl⟩
    · exact ⟨rfl, rfl, rfl⟩

theorem mkEPFold_err (uses : List (Nat × UseKind)) (st : EPState) :
    (uses.foldl mkEPStep st).hadError = st.hadError ∧
    (uses.foldl mkEPStep st).diags = st.diags ∧
    (uses.foldl mkEPStep st).promoted = st.promoted := by
  induction uses generalizing st with
  | nil => exact ⟨rfl, rfl, rfl⟩
  | cons u us ih =>
    rw [List.foldl_cons]
    obtain ⟨h1, h2, h3⟩ := ih (mkEPStep st u)
    obtain ⟨g1, g2, g3⟩ := mkEPStep_err st u
    exact ⟨by rw [h1, g1], by rw [h2, g2], by rw [h3, g3]⟩

theorem mkEPRootFix_err (rootIid : Nat) (st : EPState) :
    (mkEPRootFix rootIid st).hadError = st.hadError ∧
    (mkEPRootFix rootIid st).diags = st.diags ∧
    (mkEPRootFix rootIid st).promoted = st.promoted := by
  rw [mkEPRootFix.eq_def]
  split
  · exact ⟨rfl, rfl, rfl⟩
  · exact ⟨rfl, rfl, rfl⟩

theorem mkElementPromotion_clean (blocks : List (List Inst))
    (gen rootIid rootAddr : Nat) (trivialTy : Bool)
    (uses : List (Nat × UseKind)) :
    (mkElementPromotion blocks gen rootIid rootAddr trivialTy uses).hadError =
      false ∧
    (mkElementPromotion blocks gen rootIid rootAddr trivialTy uses).diags = [] ∧
    (mkElementPromotion blocks gen rootIid rootAddr trivialTy uses).promoted =
      [] := by
  rw [mkElementPromotion]
  obtain ⟨h1, h2, h3⟩ := mkEPRootFix_err rootIid (uses.foldl mkEPStep
    { blocks := blocks, gen := gen, rootIid := rootIid, rootAddr := rootAddr,
      trivialTy := trivialTy,
      uses := uses.map (fun u => (some u.1, u.2)),
      nonLoadUses := [], hasNLU := fun _ => false, avail := fun _ => .unknown,
      hasAnyEscape := false, hadError := false, diags := [], promoted := [] })
  obtain ⟨g1, g2, g3⟩ := mkEPFold_err uses
    { blocks := blocks, gen := gen, rootIid := rootIid, rootAddr := rootAddr,
      trivialTy := trivialTy,
      uses := uses.map (fun u => (some u.1, u.2)),
      nonLoadUses := [], hasNLU := fun _ => false, avail := fun _ => .unknown,
      hasAnyEscape := false, hadError := false, diags := [], promoted := [] }
  exact ⟨by rw [h1, g1], by rw [h2, g2], by rw [h3, g3]⟩

theorem elementPromotionDoIt_spec (P : Nat → List Nat) (liveFuel loopFuel : Nat)
    (st st' : EPState) (h : elementPromotionDoIt P liveFuel loopFuel st = some st')
    (he : st.hadError = false) (hd : st.diags = []) (hp : st.promoted = []) :
    (st'.diags = [] ∧ st'.hadError = false) ∨
    (∃ e, e ≠ Diag.variable_defined_here ∧
      e ≠ Diag.variable_initialized_on_some_paths ∧
      st'.hadError = true ∧ st'.diags = [e, Diag.variable_defined_here] ∧
      st'.promoted = []) := by
  rw [elementPromotionDoIt.eq_def] at h
  split at h
  · cases h
  · next st₁ hloop =>
    obtain ⟨hprom, hcase⟩ := doItLoop_spec P liveFuel loopFuel 0 st st₁ hloop he hd hp
    split at h
    · next herr =>
      cases h
      rcases hcase with ⟨he1, hd1⟩ | ⟨e, hn1, hn2, he1, hd1⟩
      · rw [he1] at herr
        cases herr
      · exact Or.inr ⟨e, hn1, hn2, he1, hd1, hprom⟩
    · next herr =>
      rcases hcase with ⟨he1, hd1⟩ | ⟨e, hn1, hn2, he1, hd1⟩
      · obtain ⟨g1, g2⟩ := promoteLoadsGo_preserves st₁.uses st₁ st' h
        exact Or.inl ⟨by rw [g1, hd1], by rw [g2, he1]⟩
      · rw [he1] at herr
        exact absurd rfl herr

theorem processAllocStack_noPartial (P : Nat → List Nat)
    (liveFuel loopFuel : Nat) (trivialTy : Bool) (blocks : List (List Inst))
    (gen rootIid box addr : Nat) (o : PassOut)
    (h : processAllocStack P liveFuel loopFuel trivialTy blocks gen rootIid
      box addr = some o) :
    Diag.variable_initialized_on_some_paths ∉ o.diags := by
  rw [processAllocStack.eq_def] at h
  split at h
  · cases h
  · next st' hdoit =>
    cases h
    obtain ⟨hc1, hc2, hc3⟩ := mkElementPromotion_clean blocks gen rootIid addr
      trivialTy (collectAddrUses blocks addr ++ collectBoxReleases blocks box)
    rcases elementPromotionDoIt_spec P liveFuel loopFuel _ st' hdoit hc1 hc2 hc3
      with ⟨hd, -⟩ | ⟨e, hn1, hn2, -, hd, -⟩
    · rw [show (PassOut.mk st'.blocks st'.gen st'.diags).diags = st'.diags from rfl,
        hd]
      exact List.not_mem_nil _
    · rw [show (PassOut.mk st'.blocks st'.gen st'.diags).diags = st'.diags from rfl,
        hd]
      intro hmem
      rcases List.mem_cons.1 hmem with heq | hmem'
      · exact hn2 heq.symm
      · rcases List.mem_cons.1 hmem' with heq | hmem''
        · cases heq
        · cases hmem''

theorem processMarkUninit_noPartial (P : Nat → List Nat)
    (liveFuel loopFuel : Nat) (trivialTy : Bool) (blocks : List (List Inst))
    (gen rootIid res : Nat) (o : PassOut)
    (h : processMarkUninit P liveFuel loopFuel trivialTy blocks gen rootIid
      res = some o) :
    Diag.variable_initialized_on_some_paths ∉ o.diags := by
  rw [processMarkUninit.eq_def] at h
  split at h
  · cases h
  · next st' hdoit =>
    cases h
    obtain ⟨hc1, hc2, hc3⟩ := mkElementPromotion_clean blocks gen rootIid res
      trivialTy (collectAddrUses blocks res)
    rcases elementPromotionDoIt_spec P liveFuel loopFuel _ st' hdoit hc1 hc2 hc3
      with ⟨hd, -⟩ | ⟨e, hn1, hn2, -, hd, -⟩
    · rw [show (PassOut.mk st'.blocks st'.gen st'.diags).diags = st'.diags from rfl,
        hd]
      exact List.not_mem_nil _
    · rw [show (PassOut.mk st'.blocks st'.gen st'.diags).diags = st'.diags from rfl,
        hd]
      intro hmem
      rcases List.mem_cons.1 hmem with heq | hmem'
      · exact hn2 heq.symm
      · rcases List.mem_cons.1 hmem' with heq | hmem''
        · cases heq
        · cases hmem''

theorem driveRoots_noPartial (P : Nat → List Nat) (liveFuel loopFuel : Nat)
    (trivialTy : Bool) :
    ∀ (roots : List Inst) (acc : PassOut) (out : PassOut),
      driveRoots P liveFuel loopFuel trivialTy roots acc = some out →
      Diag.variable_initialized_on_some_paths ∉ acc.diags →
      Diag.variable_initialized_on_some_paths ∉ out.diags := by
  intro roots
  induction roots with
  | nil =>
    intro acc out h hacc
    cases h
    exact hacc
  | cons root roots ih =>
    intro acc out h hacc
    rw [driveRoots] at h
    split at h
    · split at h
      · cases h
      · next o ho =>
        refine ih _ out h ?_
        rw [show (PassOut.mk o.blocks o.gen (acc.diags ++ o.diags)).diags =
          acc.diags ++ o.diags from rfl]
        intro hmem
        rcases List.mem_append.1 hmem with hm | hm
        · exact hacc hm
        · exact processAllocStack_noPartial P liveFuel loopFuel trivialTy _ _ _
            _ _ o ho hm
    · split at h
      · cases h
      · next o ho =>
        refine ih _ out h ?_
        rw [show (PassOut.mk o.blocks o.gen (acc.diags ++ o.diags)).diags =
          acc.diags ++ o.diags from rfl]
        intro hmem
        rcases List.mem_append.1 hmem with hm | hm
        · exact hacc hm
        · exact processMarkUninit_noPartial P liveFuel loopFuel trivialTy _ _ _
            _ o ho hm
    · exact ih _ out h hacc

/-! ## Claim C7 -/

/-- C7: the DI check only ever answers `Yes` or `No`, never `Partial`
— and consequently the `variable_initialized_on_some_paths` diagnostic
(emitted only from the `Partial` branch of the store-use handler) is
never produced by any run of the pass. -/
theorem C7_never_part :
    (∀ (P : Nat → List Nat) (fuel : Nat) (st : EPState) (iid : Nat)
      (d : DIKind) (s' : BState),
      checkDefinitelyInit P fuel st iid = some (d, s') → d ≠ DIKind.part) ∧
    (∀ (P : Nat → List Nat) (liveFuel loopFuel : Nat) (trivialTy : Bool)
      (blocks : List (List Inst)) (gen : Nat) (out : PassOut),
      performSILDefiniteInitialization P liveFuel loopFuel trivialTy blocks
        gen = some out →
      Diag.variable_initialized_on_some_paths ∉ out.diags) := by
  refine ⟨checkDefinitelyInit_ne_part, ?_⟩
  intro P liveFuel loopFuel trivialTy blocks gen out h
  rw [performSILDefiniteInitialization.eq_def] at h
  split at h
  · cases h
  · next ps hps =>
    cases h
    simp only []
    rw [checkDefiniteInitialization] at hps
    exact driveRoots_noPartial P liveFuel loopFuel trivialTy (rootsOf blocks)
      ⟨blocks, gen, []⟩ ps hps (List.not_mem_nil _)

/-- C7 witness: concrete applications of both parts — the DI check on
the witness state answers without `Partial`, and a concrete full run
of the pass emits no some-paths diagnostic. -/
theorem C7_never_part_witness :
    DIKind.yes ≠ DIKind.part ∧
    (∃ out, performSILDefiniteInitialization noPreds 5 10 false simpleBlocks
        200 = some out ∧
      Diag.variable_initialized_on_some_paths ∉ out.diags) :=
  ⟨C7_never_part.1 noPreds 1 witnessEP 2 DIKind.yes witnessEP.avail (by rfl),
    ⟨_, rfl, C7_never_part.2 noPreds 5 10 false simpleBlocks 200 _ rfl⟩⟩

/-! ## Claim C6 -/

/-- C6: one `ElementPromotion` run — one (allocation, sub-element)
pair — emits at most one error diagnostic: either no diagnostic at
all, or exactly one error immediately followed by the
`variable_defined_here` note; in the latter case phase 1 stopped at
that error and phase 2 was skipped entirely, so no load was
promoted. -/
theorem C6_error_policy (P : Nat → List Nat) (liveFuel loopFuel : Nat)
    (blocks : List (List Inst)) (gen rootIid rootAddr : Nat)
    (trivialTy : Bool) (uses : List (Nat × UseKind)) (out : EPState)
    (h : elementPromotionDoIt P liveFuel loopFuel
      (mkElementPromotion blocks gen rootIid rootAddr trivialTy uses) =
        some out) :
    (out.diags = [] ∧ out.hadError = false) ∨
    (∃ e, e ≠ Diag.variable_defined_here ∧
      e ≠ Diag.variable_initialized_on_some_paths ∧
      out.hadError = true ∧ out.diags = [e, Diag.variable_defined_here] ∧
      out.promoted = []) := by
  obtain ⟨hc1, hc2, hc3⟩ :=
    mkElementPromotion_clean blocks gen rootIid rootAddr trivialTy uses
  exact elementPromotionDoIt_spec P liveFuel loopFuel _ out h hc1 hc2 hc3

/-- C6 witness: the concrete error-free run over `simpleBlocks`. -/
theorem C6_error_policy_witness :
    ∃ out, elementPromotionDoIt noPreds 5 10
      (mkElementPromotion simpleBlocks 200 0 101 false
        (collectAddrUses simpleBlocks 101 ++
          collectBoxReleases simpleBlocks 100)) = some out ∧
      ((out.diags = [] ∧ out.hadError = false) ∨
        (∃ e, e ≠ Diag.variable_defined_here ∧
          e ≠ Diag.variable_initialized_on_some_paths ∧
          out.hadError = true ∧ out.diags = [e, Diag.variable_defined_here] ∧
          out.promoted = [])) := by
  refine ⟨_, rfl, ?_⟩
  exact C6_error_policy noPreds 5 10 simpleBlocks 200 0 101 false
    (collectAddrUses simpleBlocks 101 ++ collectBoxReleases simpleBlocks 100)
    _ rfl

/-! ## Lemmas about the raw-SIL lowering sweep -/

theorem LowerAssignInstruction_notRaw (isInitialization trivialTy : Bool)
    (src dst gen : Nat) (i : Inst)
    (hi : i ∈ (LowerAssignInstruction isInitialization trivialTy src dst gen).1) :
    isRawOp i.k = false := by
  rw [LowerAssignInstruction] at hi
  by_cases hc : (isInitialization || trivialTy) = true
  · rw [if_pos hc] at hi
    rcases List.mem_singleton.1 hi with rfl
    rfl
  · rw [if_neg hc] at hi
    rcases List.mem_cons.1 hi with rfl | hi'
    · rfl
    · rcases List.mem_cons.1 hi' with rfl | hi''
      · rfl
      · rcases List.mem_singleton.1 hi'' with rfl
        rfl

theorem lowerRawBlockGo_notRaw (trivialTy : Bool) :
    ∀ (l : List Inst) (gen : Nat) (i : Inst),
      i ∈ (lowerRawBlockGo trivialTy l gen).1 → isRawOp i.k = false := by
  intro l
  induction l with
  | nil =>
    intro gen i hi
    cases hi
  | cons a rest ih =>
    intro gen i hi
    obtain ⟨iid, k⟩ := a
    rw [lowerRawBlockGo] at hi
    cases k with
    | assign src dst =>
      simp only [] at hi
      rcases List.mem_append.1 hi with hm | hm
      · exact LowerAssignInstruction_notRaw false trivialTy src dst gen i hm
      · exact ih _ i hm
    | markUninit res op =>
      simp only [] at hi
      exact ih _ i hi
    | markFuncEscape op =>
      simp only [] at hi
      exact ih _ i hi
    | allocStack box addr =>
      simp only [] at hi
      rcases List.mem_cons.1 hi with rfl | hm
      · rfl
      · exact ih _ i hm
    | store src dst =>
      simp only [] at hi
      rcases List.mem_cons.1 hi with rfl | hm
      · rfl
      · exact ih _ i hm
    | load res addr =>
      simp only [] at hi
      rcases List.mem_cons.1 hi with rfl | hm
      · rfl
      · exact ih _ i hm
    | copyAddr src dst ii =>
      simp only [] at hi
      rcases List.mem_cons.1 hi with rfl | hm
      · rfl
      · exact ih _ i hm
    | strongRelease op =>
      simp only [] at hi
      rcases List.mem_cons.1 hi with rfl | hm
      · rfl
      · exact ih _ i hm
    | deallocStack op =>
      simp only [] at hi
      rcases List.mem_cons.1 hi with rfl | hm
      · rfl
      · exact ih _ i hm
    | destroyValue op =>
      simp only [] at hi
      rcases List.mem_cons.1 hi with rfl | hm
      · rfl
      · exact ih _ i hm
    | otherInst ops =>
      simp only [] at hi
      rcases List.mem_cons.1 hi with rfl | hm
      · rfl
      · exact ih _ i hm

theorem substInst_isRawOp (o n : Nat) (i : Inst) :
    isRawOp (substInst o n i).k = isRawOp i.k := by
  obtain ⟨iid, k⟩ := i
  cases k <;> rfl

theorem substBlocks_notRaw (o n : Nat) (bs : List (List Inst))
    (hc : ∀ blk ∈ bs, ∀ i ∈ blk, isRawOp i.k = false) :
    ∀ blk ∈ substBlocks o n bs, ∀ i ∈ blk, isRawOp i.k = false := by
  intro blk hblk i hi
  rw [substBlocks] at hblk
  rcases List.mem_map.1 hblk with ⟨blk0, hblk0, rfl⟩
  rcases List.mem_map.1 hi with ⟨i0, hi0, rfl⟩
  rw [substInst_isRawOp]
  exact hc blk0 hblk0 i0 hi0

theorem applySubsts_notRaw :
    ∀ (ps : List (Nat × Nat)) (bs : List (List Inst)),
      (∀ blk ∈ bs, ∀ i ∈ blk, isRawOp i.k = false) →
      ∀ blk ∈ applySubsts ps bs, ∀ i ∈ blk, isRawOp i.k = false := by
  intro ps
  induction ps with
  | nil =>
    intro bs hc
    exact hc
  | cons p ps ih =>
    intro bs hc
    rw [applySubsts]
    exact substBlocks_notRaw p.1 p.2 _ (ih bs hc)

theorem lowerRawFold_notRaw (trivialTy : Bool) :
    ∀ (blocks : List (List Inst))
      (acc : List (List Inst) × List (Nat × Nat) × Nat),
      (∀ blk ∈ acc.1, ∀ i ∈ blk, isRawOp i.k = false) →
      ∀ blk ∈ (blocks.foldl (lowerRawStep trivialTy) acc).1, ∀ i ∈ blk,
        isRawOp i.k = false := by
  intro blocks
  induction blocks with
  | nil =>
    intro acc hc
    exact hc
  | cons b blocks ih =>
    intro acc hc
    rw [List.foldl_cons]
    refine ih _ ?_
    intro blk hblk i hi
    rcases List.mem_append.1 hblk with hm | hm
    · exact hc blk hm i hi
    · rcases List.mem_singleton.1 hm with rfl
      exact lowerRawBlockGo_notRaw trivialTy b acc.2.2 i hi

/-! ## Claim C8 -/

/-- C8 (amended): the lowering sweep is total in eliminating raw SIL
operations — after `lowerRawSILOperations` (and hence after any
successful run of the full pass) no `assign`, `mark_uninitialized`, or
`mark_function_escape` instruction remains in any block.  The
idempotence half of the original claim is refuted separately: a second
run can still rewrite the module. -/
theorem C8_lowering_amended :
    (∀ (trivialTy : Bool) (blocks : List (List Inst)) (gen : Nat),
      ∀ blk ∈ (lowerRawSILOperations trivialTy blocks gen).1, ∀ i ∈ blk,
        isRawOp i.k = false) ∧
    (∀ (P : Nat → List Nat) (liveFuel loopFuel : Nat) (trivialTy : Bool)
      (blocks : List (List Inst)) (gen : Nat) (out : PassOut),
      performSILDefiniteInitialization P liveFuel loopFuel trivialTy blocks
        gen = some out →
      ∀ blk ∈ out.blocks, ∀ i ∈ blk, isRawOp i.k = false) := by
  have hlow : ∀ (trivialTy : Bool) (blocks : List (List Inst)) (gen : Nat),
      ∀ blk ∈ (lowerRawSILOperations trivialTy blocks gen).1, ∀ i ∈ blk,
        isRawOp i.k = false := by
    intro trivialTy blocks gen
    rw [lowerRawSILOperations]
    exact applySubsts_notRaw _ _
      (lowerRawFold_notRaw trivialTy blocks ([], [], gen)
        (fun blk hblk => absurd hblk (List.not_mem_nil blk)))
  refine ⟨hlow, ?_⟩
  intro P liveFuel loopFuel trivialTy blocks gen out h
  rw [performSILDefiniteInitialization.eq_def] at h
  split at h
  · cases h
  · next ps hps =>
    cases h
    simp only []
    exact hlow trivialTy ps.blocks ps.gen

/-- C8 amended witness: a concrete full run whose output blocks are
free of raw SIL operations. -/
theorem C8_lowering_amended_witness :
    ∃ out, performSILDefiniteInitialization noPreds 5 10 false cexBlocks
        200 = some out ∧
      ∀ blk ∈ out.blocks, ∀ i ∈ blk, isRawOp i.k = false :=
  ⟨_, rfl, C8_lowering_amended.2 noPreds 5 10 false cexBlocks 200 _ rfl⟩

/-- C8 counterexample: the pass is not idempotent.  On `cexBlocks`
(a `mark_uninitialized` whose address feeds a `copy_addr` destination
with `isInitialization = false`) the first run reports an escape, so
the `copy_addr` flag is left unset; the second run, now without the
marker, flips the flag — the rewritten module changes again. -/
theorem C8_counterexample :
    ∃ o1 o2,
      performSILDefiniteInitialization noPreds 5 10 false cexBlocks 200 =
        some o1 ∧
      performSILDefiniteInitialization noPreds 5 10 false o1.blocks o1.gen =
        some o2 ∧
      o2.blocks ≠ o1.blocks :=
  ⟨_, _, rfl, rfl, by decide⟩

/-! ## Claim C10 -/

/-- C10 (amended): for an empty-tuple element type the element count is
0, the per-element use array is empty, no per-element processing runs
and no diagnostic is emitted — but the collection phase still rewrites
aggregate loads and stores of the empty tuple (scalarization erases
them), so "performs no rewriting" does not hold; that half is refuted
by the separate counterexample. -/
theorem C10_emptyTuple_amended :
    getTupleElementCount (SType.tuple []) = 0 ∧
    (∀ (shapes : List UseShape) (releases : Nat)
      (processElement : Nat → List UseKind → List Diag),
      (processAllocBox (SType.tuple []) shapes releases processElement).1 =
        [] ∧
      (processAllocBox (SType.tuple []) shapes releases processElement).2.2 =
        []) :=
  ⟨rfl, fun _ _ _ => ⟨rfl, rfl⟩⟩

/-- C10 counterexample: an aggregate `load` of an empty-tuple
allocation is still scalarized — the collection phase records a
rewrite (the load is replaced by zero element loads and erased), so
the pass does rewrite the function even though the element count is
0. -/
theorem C10_counterexample :
    (processAllocBox (SType.tuple []) [UseShape.uload] 0
        (fun _ _ => [])).2.1 = [Rewrite.scalarizedLoad 0] ∧
    [Rewrite.scalarizedLoad 0] ≠ ([] : List Rewrite) :=
  ⟨rfl, by decide⟩

/-- C2 witness: the no-non-load-uses early success at a concrete
nonempty demanded set. -/
theorem C2_computeAvailableValues_amended_witness :
    ({0} : Finset Nat) ≠ ∅ ∧
    computeAvailableValues false [some ScanInst.clobber] {0}
      (fun _ => none) = (true, {0}, fun _ => none) :=
  ⟨by decide,
    C2_computeAvailableValues_amended.2.1 [some ScanInst.clobber] {0}
      (fun _ => none) (by decide)⟩

end DefiniteInit
